import Mathlib

/-!
Verification of the `ourway/auth` multi-tenant RBAC service.

The development shallowly embeds the SQLAlchemy-backed authorization engine
(`src/auth/service.py` together with the row model of
`src/auth/models/sql.py`), the Flask boundary of `src/auth/routes.py` with its
input validators (`src/auth/validation.py`), and the deterministic field
encryption layer of `src/auth/encryption.py`.

The database is modelled as explicit lists of rows.  Each table keeps its rows
in insertion order, which is the order in which SQLite/PostgreSQL return them
for the unordered queries issued by the service, so SQLAlchemy's `.first()`
becomes `List.find?` and `.all()` becomes `List.filter`.  The two many-to-many
association tables (`membership_groups`, `permission_groups`) are lists of id
pairs.  Auto-increment primary keys are modelled with one `next` counter per
table.  Field-level encryption is the identity in the stored rows (the
deterministic scheme is a bijection applied at rest and inverted on access;
with encryption disabled — the default configuration — the wrappers are
literally the identity), so rows carry the plaintext field values that the
service compares against.
-/

namespace Auth

/-- Row of the `auth_group` table (`AuthGroup` in `src/auth/models/sql.py`). -/
structure AuthGroup where
  id : Nat
  creator : String
  role : String
  description : Option String
  is_active : Bool
  deriving Repr, DecidableEq

/-- Row of the `auth_membership` table (`AuthMembership`). -/
structure AuthMembership where
  id : Nat
  creator : String
  user : String
  is_active : Bool
  deriving Repr, DecidableEq

/-- Row of the `auth_permission` table (`AuthPermission`). -/
structure AuthPermission where
  id : Nat
  creator : String
  name : String
  is_active : Bool
  deriving Repr, DecidableEq

/-- The relational store: the three entity tables, the two association tables
(`membership_groups` as `(membership_id, group_id)` pairs, `permission_groups`
as `(permission_id, group_id)` pairs), and the auto-increment counters. -/
structure DB where
  groups : List AuthGroup
  members : List AuthMembership
  perms : List AuthPermission
  mg : List (Nat × Nat)
  pg : List (Nat × Nat)
  nextGid : Nat
  nextMid : Nat
  nextPid : Nat
  deriving Repr, DecidableEq

/-- The empty database. -/
def DB.empty : DB := ⟨[], [], [], [], [], 0, 0, 0⟩

/-- Query predicate `creator == c AND role == r` (used by the writes, which do
not filter on `is_active`). -/
def gKey (c r : String) (g : AuthGroup) : Bool :=
  g.creator == c && g.role == r

/-- Query predicate `creator == c AND role == r AND is_active`. -/
def gAct (c r : String) (g : AuthGroup) : Bool :=
  g.creator == c && g.role == r && g.is_active

/-- Query predicate `creator == c AND user == u` on memberships. -/
def mKey (c u : String) (m : AuthMembership) : Bool :=
  m.creator == c && m.user == u

/-- Query predicate `creator == c AND user == u AND is_active`. -/
def mAct (c u : String) (m : AuthMembership) : Bool :=
  m.creator == c && m.user == u && m.is_active

/-- Query predicate `creator == c AND name == n` on permissions. -/
def pKey (c n : String) (p : AuthPermission) : Bool :=
  p.creator == c && p.name == n

/-- Query predicate `creator == c AND name == n AND is_active`. -/
def pAct (c n : String) (p : AuthPermission) : Bool :=
  p.creator == c && p.name == n && p.is_active

/-- `membership.groups` relationship: the groups linked to membership `m`
through the `membership_groups` association table. -/
def memGroups (db : DB) (m : AuthMembership) : List AuthGroup :=
  db.groups.filter (fun g => decide ((m.id, g.id) ∈ db.mg))

/-- `group.memberships` relationship. -/
def groupMems (db : DB) (g : AuthGroup) : List AuthMembership :=
  db.members.filter (fun m => decide ((m.id, g.id) ∈ db.mg))

/-- `group.permissions` relationship. -/
def groupPerms (db : DB) (g : AuthGroup) : List AuthPermission :=
  db.perms.filter (fun p => decide ((p.id, g.id) ∈ db.pg))

/-- `permission.groups` relationship. -/
def permGroups (db : DB) (p : AuthPermission) : List AuthGroup :=
  db.groups.filter (fun g => decide ((p.id, g.id) ∈ db.pg))

/-- `AuthorizationService.get_roles` for client `c`. -/
def get_roles (c : String) (db : DB) : List (String × Option String) :=
  (db.groups.filter (fun g => g.creator == c && g.is_active)).map
    (fun g => (g.role, g.description))

/-- `AuthorizationService.get_permissions(role)`. -/
def get_permissions (c role : String) (db : DB) : List String :=
  match db.groups.find? (gAct c role) with
  | none => []
  | some g => ((groupPerms db g).filter (·.is_active)).map (·.name)

/-- `AuthorizationService.get_user_permissions(user)`. -/
def get_user_permissions (c user : String) (db : DB) : List String :=
  match db.members.find? (mAct c user) with
  | none => []
  | some m =>
    ((memGroups db m).filter (·.is_active)).flatMap
      (fun g => ((groupPerms db g).filter (·.is_active)).map (·.name))

/-- `AuthorizationService.get_user_roles(user)`: `(user, role)` pairs. -/
def get_user_roles (c user : String) (db : DB) : List (String × String) :=
  match db.members.find? (mAct c user) with
  | none => []
  | some m => ((memGroups db m).filter (·.is_active)).map (fun g => (m.user, g.role))

/-- `AuthorizationService.get_role_members(role)`: `(user, role)` pairs. -/
def get_role_members (c role : String) (db : DB) : List (String × String) :=
  match db.groups.find? (gAct c role) with
  | none => []
  | some g => ((groupMems db g).filter (·.is_active)).map (fun m => (m.user, g.role))

/-- `AuthorizationService.which_roles_can(name)`. -/
def which_roles_can (c name : String) (db : DB) : List String :=
  match db.perms.find? (pAct c name) with
  | none => []
  | some p => ((permGroups db p).filter (·.is_active)).map (·.role)

/-- `AuthorizationService.which_users_can(name)`: starts from an empty result
list and `extend`s it with the members of each qualifying role. -/
def which_users_can (c name : String) (db : DB) : List (String × String) :=
  (which_roles_can c name db).foldl
    (fun acc role => acc ++ get_role_members c role db) []

/-- `AuthorizationService.has_membership(user, role)`. -/
def has_membership (c user role : String) (db : DB) : Bool :=
  match db.members.find? (mAct c user) with
  | none => false
  | some m => (memGroups db m).any (fun g => g.role == role && g.is_active)

/-- `AuthorizationService.has_permission(role, name)`. -/
def has_permission (c role name : String) (db : DB) : Bool :=
  match db.groups.find? (gAct c role) with
  | none => false
  | some g => (groupPerms db g).any (fun p => p.name == name && p.is_active)

/-- `AuthorizationService.user_has_permission(user, name)`. -/
def user_has_permission (c user name : String) (db : DB) : Bool :=
  match db.members.find? (mAct c user) with
  | none => false
  | some m =>
    (memGroups db m).any (fun g => g.is_active && has_permission c g.role name db)

/-- Point update of the group row with id `i` (the committed effect of
mutating an ORM-loaded row). -/
def updG (i : Nat) (f : AuthGroup → AuthGroup) (l : List AuthGroup) : List AuthGroup :=
  l.map (fun g => if g.id == i then f g else g)

/-- The row mutation performed by `add_role` on an existing inactive row:
set `is_active = True` and overwrite the description only when one was
provided. -/
def reviveG (d : Option String) (g' : AuthGroup) : AuthGroup :=
  { g' with
    is_active := true
    description := match d with | some s => some s | none => g'.description }

/-- The row mutation performed by `del_role`: clear `is_active`. -/
def deactivateG (g' : AuthGroup) : AuthGroup :=
  { g' with is_active := false }

/-- `AuthorizationService.add_role(role, description)`.  Returns the reported
result together with the committed state. -/
def add_role (c role : String) (d : Option String) (db : DB) : Bool × DB :=
  match db.groups.find? (gKey c role) with
  | some g =>
    if g.is_active then (true, db)
    else (true, { db with groups := updG g.id (reviveG d) db.groups })
  | none =>
    (true, { db with
      groups := db.groups ++ [⟨db.nextGid, c, role, d, true⟩]
      nextGid := db.nextGid + 1 })

/-- `AuthorizationService.del_role(role)` (soft delete). -/
def del_role (c role : String) (db : DB) : Bool × DB :=
  match db.groups.find? (gKey c role) with
  | some g =>
    if g.is_active then
      (true, { db with groups := updG g.id deactivateG db.groups })
    else (false, db)
  | none => (false, db)

/-- `AuthorizationService.add_membership(user, role)`. -/
def add_membership (c user role : String) (db : DB) : Bool × DB :=
  match db.groups.find? (gAct c role) with
  | none => (false, db)
  | some g =>
    match db.members.find? (mKey c user) with
    | some m =>
      if (m.id, g.id) ∈ db.mg then (true, db)
      else (true, { db with mg := db.mg ++ [(m.id, g.id)] })
    | none =>
      (true, { db with
        members := db.members ++ [⟨db.nextMid, c, user, true⟩]
        nextMid := db.nextMid + 1
        mg := db.mg ++ [(db.nextMid, g.id)] })

/-- `AuthorizationService.del_membership(user, role)` (unlink only). -/
def del_membership (c user role : String) (db : DB) : Bool × DB :=
  if has_membership c user role db = false then (true, db)
  else
    match db.groups.find? (gKey c role) with
    | none => (true, db)
    | some g =>
      match db.members.find? (mKey c user) with
      | none => (true, db)
      | some m =>
        if (m.id, g.id) ∈ db.mg then
          (true, { db with mg := db.mg.erase (m.id, g.id) })
        else (true, db)

/-- `AuthorizationService.add_permission(role, name)`. -/
def add_permission (c role name : String) (db : DB) : Bool × DB :=
  if has_permission c role name db then (true, db)
  else
    match db.groups.find? (gAct c role) with
    | none => (false, db)
    | some g =>
      match db.perms.find? (pKey c name) with
      | some p =>
        if (p.id, g.id) ∈ db.pg then (true, db)
        else (true, { db with pg := db.pg ++ [(p.id, g.id)] })
      | none =>
        (true, { db with
          perms := db.perms ++ [⟨db.nextPid, c, name, true⟩]
          nextPid := db.nextPid + 1
          pg := db.pg ++ [(db.nextPid, g.id)] })

/-- `AuthorizationService.del_permission(role, name)` (unlink only). -/
def del_permission (c role name : String) (db : DB) : Bool × DB :=
  if has_permission c role name db then
    match db.groups.find? (gKey c role) with
    | none => (true, db)
    | some g =>
      match db.perms.find? (pKey c name) with
      | none => (true, db)
      | some p =>
        if (p.id, g.id) ∈ db.pg then
          (true, { db with pg := db.pg.erase (p.id, g.id) })
        else (true, db)
  else (true, db)

/-! ### Generic list helpers for first-match and filter queries -/

theorem find?_congr' {α : Type} {p q : α → Bool} (l : List α)
    (hpq : ∀ x ∈ l, p x = q x) : l.find? p = l.find? q := by
  induction l with
  | nil => rfl
  | cons x xs ih =>
    simp only [List.find?]
    rw [hpq x (List.mem_cons_self x xs)]
    cases q x with
    | true => rfl
    | false => exact ih fun y hy => hpq y (List.mem_cons_of_mem x hy)

theorem any_congr' {α : Type} {p q : α → Bool} (l : List α)
    (h : ∀ x ∈ l, p x = q x) : l.any p = l.any q := by
  induction l with
  | nil => rfl
  | cons x xs ih =>
    simp only [List.any_cons]
    rw [h x (List.mem_cons_self x xs),
      ih (fun y hy => h y (List.mem_cons_of_mem x hy))]

/-- First match in a pointwise-updated table: if the update does not change
whether any row matches, the first match is the update of the old first match. -/
theorem find?_map_eq {α : Type} (t : α → α) (p : α → Bool) (l : List α)
    (h : ∀ x ∈ l, p (t x) = p x) :
    (l.map t).find? p = (l.find? p).map t := by
  rw [List.find?_map]
  exact congrArg (Option.map t) (find?_congr' l h)

/-- First match in a pointwise-updated table where every matching row is left
unchanged by the update. -/
theorem find?_map_fix {α : Type} (t : α → α) (p : α → Bool) (l : List α)
    (h : ∀ x ∈ l, p (t x) = p x) (h2 : ∀ x ∈ l, p x = true → t x = x) :
    (l.map t).find? p = l.find? p := by
  rw [find?_map_eq t p l h]
  cases hf : l.find? p with
  | none => rfl
  | some a =>
    simp [h2 a (List.mem_of_find?_eq_some hf) (List.find?_some hf)]

/-- Appending a non-matching row does not change the first match. -/
theorem find?_append_neg {α : Type} {p : α → Bool} {x : α} (l : List α)
    (hx : p x = false) : (l ++ [x]).find? p = l.find? p := by
  rw [List.find?_append]
  cases l.find? p with
  | none => simp [List.find?, hx]
  | some a => rfl

/-- Appending a non-matching row does not change a filter. -/
theorem filter_append_neg {α : Type} {p : α → Bool} {x : α} (l : List α)
    (hx : p x = false) : (l ++ [x]).filter p = l.filter p := by
  rw [List.filter_append]
  simp [List.filter, hx]

theorem filter_map_eq {α : Type} (t : α → α) (p : α → Bool) (l : List α)
    (h : ∀ x ∈ l, p (t x) = p x) :
    (l.map t).filter p = (l.filter p).map t := by
  rw [List.filter_map]
  exact congrArg (List.map t) (List.filter_congr h)

theorem filter_map_fix {α : Type} (t : α → α) (p : α → Bool) (l : List α)
    (h : ∀ x ∈ l, p (t x) = p x) (h2 : ∀ x ∈ l, p x = true → t x = x) :
    (l.map t).filter p = l.filter p := by
  rw [filter_map_eq t p l h]
  have hfix : ∀ x ∈ l.filter p, t x = x := fun x hx =>
    h2 x (List.mem_of_mem_filter hx) (List.of_mem_filter hx)
  calc (l.filter p).map t = (l.filter p).map id := List.map_congr_left hfix
    _ = l.filter p := List.map_id _

/-! ### C1: composition of `user_has_permission` -/

/-- C1: for every tenant `c`, user `u` and permission name `p`,
`user_has_permission(u, p)` returns true if and only if there exists a role
`r` that is active under `c` such that `has_membership(u, r)` returns true and
`has_permission(r, p)` returns true. -/
theorem user_has_permission_iff (c u p : String) (db : DB) :
    user_has_permission c u p db = true ↔
      ∃ r, (∃ g ∈ db.groups, g.creator = c ∧ g.role = r ∧ g.is_active = true) ∧
        has_membership c u r db = true ∧ has_permission c r p db = true := by
  unfold user_has_permission
  cases h : db.members.find? (mAct c u) with
  | none =>
    simp only [has_membership, h]
    constructor
    · intro hfalse; cases hfalse
    · rintro ⟨r, -, hfalse, -⟩; cases hfalse
  | some m =>
    rw [List.any_eq_true]
    constructor
    · rintro ⟨g, hgmem, hg⟩
      rw [Bool.and_eq_true] at hg
      obtain ⟨hact, hp⟩ := hg
      refine ⟨g.role, ?_, ?_, hp⟩
      · have hp' := hp
        unfold has_permission at hp'
        cases h2 : db.groups.find? (gAct c g.role) with
        | none => rw [h2] at hp'; cases hp'
        | some g0 =>
          have hmem := List.mem_of_find?_eq_some h2
          have hpred := List.find?_some h2
          unfold gAct at hpred
          simp only [Bool.and_eq_true, beq_iff_eq] at hpred
          exact ⟨g0, hmem, hpred.1.1, hpred.1.2, hpred.2⟩
      · rw [has_membership, h, List.any_eq_true]
        exact ⟨g, hgmem, by simp [hact]⟩
    · rintro ⟨r, -, hm, hp⟩
      rw [has_membership, h, List.any_eq_true] at hm
      obtain ⟨g, hgmem, hg⟩ := hm
      simp only [Bool.and_eq_true, beq_iff_eq] at hg
      refine ⟨g, hgmem, ?_⟩
      rw [Bool.and_eq_true]
      exact ⟨hg.2, hg.1 ▸ hp⟩

/-! ### C3: idempotence of the adds -/

theorem add_role_twice (c r : String) (d : Option String) (db : DB) :
    (add_role c r d (add_role c r d db).2).2 = (add_role c r d db).2 ∧
      (add_role c r d db).1 = true ∧
      (add_role c r d (add_role c r d db).2).1 = true := by
  cases h : db.groups.find? (gKey c r) with
  | some g =>
    cases hact : g.is_active with
    | true => simp [add_role, h, hact]
    | false =>
      have hpt : ∀ x ∈ db.groups,
          gKey c r (if x.id == g.id then reviveG d x else x) = gKey c r x := by
        intro x _
        by_cases hx : x.id == g.id <;> simp [hx, gKey, reviveG]
      have hfind2 : (updG g.id (reviveG d) db.groups).find? (gKey c r)
          = some (reviveG d g) := by
        rw [updG, find?_map_eq _ (gKey c r) db.groups hpt, h]
        simp
      have e1 : add_role c r d db
          = (true, { db with groups := updG g.id (reviveG d) db.groups }) := by
        simp [add_role, h, hact]
      have e2 : add_role c r d { db with groups := updG g.id (reviveG d) db.groups }
          = (true, { db with groups := updG g.id (reviveG d) db.groups }) := by
        simp only [add_role]
        rw [hfind2]
        simp [reviveG]
      rw [e1, e2]
      exact ⟨rfl, rfl, rfl⟩
  | none =>
    have hnew : gKey c r (⟨db.nextGid, c, r, d, true⟩ : AuthGroup) = true := by
      simp [gKey]
    have hfind2 : (db.groups ++ [(⟨db.nextGid, c, r, d, true⟩ : AuthGroup)]).find? (gKey c r)
        = some ⟨db.nextGid, c, r, d, true⟩ := by
      rw [List.find?_append, h]
      simp [List.find?, hnew]
    simp [add_role, h, hfind2]

theorem add_membership_twice (c u r : String) (db : DB) :
    (add_membership c u r (add_membership c u r db).2).2 = (add_membership c u r db).2 ∧
      (add_membership c u r (add_membership c u r db).2).1 = (add_membership c u r db).1 := by
  cases hg : db.groups.find? (gAct c r) with
  | none => simp [add_membership, hg]
  | some g =>
    cases hm : db.members.find? (mKey c u) with
    | some m =>
      by_cases hlink : (m.id, g.id) ∈ db.mg
      · simp [add_membership, hg, hm, hlink]
      · simp [add_membership, hg, hm, hlink]
    | none =>
      have hnewm : mKey c u (⟨db.nextMid, c, u, true⟩ : AuthMembership) = true := by
        simp [mKey]
      have hfind2 : (db.members ++ [(⟨db.nextMid, c, u, true⟩ : AuthMembership)]).find? (mKey c u)
          = some ⟨db.nextMid, c, u, true⟩ := by
        rw [List.find?_append, hm]
        simp [List.find?, hnewm]
      simp [add_membership, hg, hm, hfind2]

theorem add_permission_twice (c r n : String) (db : DB) :
    (add_permission c r n (add_permission c r n db).2).2 = (add_permission c r n db).2 ∧
      (add_permission c r n (add_permission c r n db).2).1 = (add_permission c r n db).1 := by
  cases hp : has_permission c r n db with
  | true => simp [add_permission, hp]
  | false =>
    cases hg : db.groups.find? (gAct c r) with
    | none => simp [add_permission, hp, hg]
    | some g =>
      cases hpm : db.perms.find? (pKey c n) with
      | some p =>
        by_cases hlink : (p.id, g.id) ∈ db.pg
        · simp [add_permission, hp, hg, hpm, hlink]
        · -- first call appends the link; the second call reports true whatever
          -- `has_permission` now says, without touching the state again
          by_cases hp2 : has_permission c r n
              { db with pg := db.pg ++ [(p.id, g.id)] }
          · simp [add_permission, hp, hg, hpm, hlink, hp2]
          · simp [add_permission, hp, hg, hpm, hlink, hp2]
      | none =>
        -- the first call creates an active permission row carrying name `n`
        -- and links it, so the second call's `has_permission` guard fires
        have hp2 : has_permission c r n
            { db with
              perms := db.perms ++ [(⟨db.nextPid, c, n, true⟩ : AuthPermission)]
              nextPid := db.nextPid + 1
              pg := db.pg ++ [(db.nextPid, g.id)] } = true := by
          rw [has_permission]
          have hgroups : ({ db with
              perms := db.perms ++ [(⟨db.nextPid, c, n, true⟩ : AuthPermission)]
              nextPid := db.nextPid + 1
              pg := db.pg ++ [(db.nextPid, g.id)] } : DB).groups = db.groups := rfl
          rw [hgroups, hg, List.any_eq_true]
          refine ⟨⟨db.nextPid, c, n, true⟩, ?_, by simp⟩
          rw [groupPerms, List.mem_filter]
          constructor
          · exact List.mem_append_right _ (List.mem_singleton.mpr rfl)
          · simp
        simp [add_permission, hp, hg, hpm, hp2]


/-! ### C4: soft-delete revival -/

/-- C4: starting from a state with no `(c, r)` role row at all, the sequence
`add_role(c, r); del_role(c, r); add_role(c, r)` makes the role visible again —
an active `(c, r)` row exists and `(r, description)` appears in `get_roles` —
and the revived row carries the same internal id (`db.nextGid`) as the row
created by the first `add_role`. -/
theorem role_revival (c r : String) (d₁ d₂ : Option String) (db : DB)
    (h : db.groups.find? (gKey c r) = none) :
    ∃ g ∈ ((add_role c r d₂ ((del_role c r ((add_role c r d₁ db).2)).2)).2).groups,
      g.creator = c ∧ g.role = r ∧ g.is_active = true ∧ g.id = db.nextGid ∧
      (g.role, g.description) ∈
        get_roles c ((add_role c r d₂ ((del_role c r ((add_role c r d₁ db).2)).2)).2) := by
  set gN : AuthGroup := ⟨db.nextGid, c, r, d₁, true⟩ with hgN
  have hnew : gKey c r gN = true := by simp [gKey, hgN]
  have e1 : (add_role c r d₁ db).2
      = { db with groups := db.groups ++ [gN], nextGid := db.nextGid + 1 } := by
    simp [add_role, h]
  have efind1 : (db.groups ++ [gN]).find? (gKey c r) = some gN := by
    rw [List.find?_append, h]
    simp [List.find?, hnew]
  rw [e1]
  have e2 : (del_role c r { db with groups := db.groups ++ [gN], nextGid := db.nextGid + 1 }).2
      = { db with
          groups := updG db.nextGid deactivateG (db.groups ++ [gN])
          nextGid := db.nextGid + 1 } := by
    simp only [del_role]
    rw [efind1]
    rfl
  rw [e2]
  have hpt2 : ∀ x ∈ db.groups ++ [gN],
      gKey c r (if x.id == db.nextGid then deactivateG x else x) = gKey c r x := by
    intro x _
    by_cases hx : x.id == db.nextGid <;> simp [hx, gKey, deactivateG]
  have efind2 : (updG db.nextGid deactivateG (db.groups ++ [gN])).find? (gKey c r)
      = some (deactivateG gN) := by
    rw [updG, find?_map_eq _ (gKey c r) _ hpt2, efind1]
    simp [hgN]
  have e3 : (add_role c r d₂ { db with
        groups := updG db.nextGid deactivateG (db.groups ++ [gN])
        nextGid := db.nextGid + 1 }).2
      = { db with
          groups := updG db.nextGid (reviveG d₂)
            (updG db.nextGid deactivateG (db.groups ++ [gN]))
          nextGid := db.nextGid + 1 } := by
    simp only [add_role]
    rw [efind2]
    rfl
  rw [e3]
  have m1 : gN ∈ db.groups ++ [gN] := List.mem_append_right _ (by simp)
  have m2 : deactivateG gN ∈ updG db.nextGid deactivateG (db.groups ++ [gN]) := by
    rw [updG]
    have hm := List.mem_map_of_mem (fun x => if x.id == db.nextGid then deactivateG x else x) m1
    simp only [hgN, beq_self_eq_true, if_pos] at hm
    exact hm
  have m3 : reviveG d₂ (deactivateG gN) ∈ updG db.nextGid (reviveG d₂)
      (updG db.nextGid deactivateG (db.groups ++ [gN])) := by
    rw [updG]
    have hm := List.mem_map_of_mem (fun x => if x.id == db.nextGid then reviveG d₂ x else x) m2
    simpa [hgN, deactivateG] using hm
  refine ⟨reviveG d₂ (deactivateG gN), m3, rfl, rfl, rfl, rfl, ?_⟩
  rw [get_roles]
  apply List.mem_map_of_mem
  rw [List.mem_filter]
  exact ⟨m3, by simp [reviveG, deactivateG, hgN]⟩

/-- Closed instance of `role_revival` at a concrete tenant and role. -/
theorem role_revival_witness :
    DB.empty.groups.find? (gKey "550e8400-e29b-41d4-a716-446655440000" "admin") = none ∧
    ∃ g ∈ ((add_role "550e8400-e29b-41d4-a716-446655440000" "admin" none
        ((del_role "550e8400-e29b-41d4-a716-446655440000" "admin"
          ((add_role "550e8400-e29b-41d4-a716-446655440000" "admin" none DB.empty).2)).2)).2).groups,
      g.creator = "550e8400-e29b-41d4-a716-446655440000" ∧ g.role = "admin" ∧
      g.is_active = true ∧ g.id = DB.empty.nextGid ∧
      (g.role, g.description) ∈
        get_roles "550e8400-e29b-41d4-a716-446655440000"
          ((add_role "550e8400-e29b-41d4-a716-446655440000" "admin" none
            ((del_role "550e8400-e29b-41d4-a716-446655440000" "admin"
              ((add_role "550e8400-e29b-41d4-a716-446655440000" "admin" none DB.empty).2)).2)).2) :=
  ⟨rfl, role_revival "550e8400-e29b-41d4-a716-446655440000" "admin" none none DB.empty rfl⟩

/-! ### C5: `add_role` upsert behaviour -/

/-- A store holding one active `("c", "admin")` role whose description is
`"old"`. -/
def dbActiveAdmin : DB :=
  ⟨[⟨0, "c", "admin", some "old", true⟩], [], [], [], [], 1, 0, 0⟩

/-- Counterexample to C5 as stated: calling `add_role` with a provided
description on an already-active role reports success but does **not** refresh
the description — the stored row keeps `"old"`. -/
theorem add_role_active_description_stale :
    (add_role "c" "admin" (some "new") dbActiveAdmin).1 = true ∧
    (add_role "c" "admin" (some "new") dbActiveAdmin).2 = dbActiveAdmin ∧
    ((add_role "c" "admin" (some "new") dbActiveAdmin).2.groups.find?
        (gKey "c" "admin")).map AuthGroup.description ≠ some (some "new") := by
  refine ⟨rfl, rfl, ?_⟩
  intro hcontra
  simp [dbActiveAdmin, add_role, gKey, List.find?] at hcontra

/-- C5 (amended): `add_role(c, name, description)` inserts a new active row
when no `(c, name)` row exists; when an **inactive** row exists it sets
`is_active` back to true and refreshes the description whenever one is
provided; when an **active** row exists it leaves the store unchanged
(the description is not refreshed); in every case it reports success. -/
theorem add_role_upsert_spec (c r : String) (d : Option String) (db : DB) :
    (add_role c r d db).1 = true ∧
    (db.groups.find? (gKey c r) = none →
      (add_role c r d db).2.groups = db.groups ++ [⟨db.nextGid, c, r, d, true⟩]) ∧
    (∀ g, db.groups.find? (gKey c r) = some g → g.is_active = true →
      (add_role c r d db).2 = db) ∧
    (∀ g, db.groups.find? (gKey c r) = some g → g.is_active = false →
      (add_role c r d db).2.groups = updG g.id (reviveG d) db.groups ∧
        (reviveG d g).is_active = true ∧
        (reviveG d g).description = (match d with | some s => some s | none => g.description)) := by
  refine ⟨?_, ?_, ?_, ?_⟩
  · cases h : db.groups.find? (gKey c r) with
    | none => simp [add_role, h]
    | some g => cases hact : g.is_active <;> simp [add_role, h, hact]
  · intro h
    simp [add_role, h]
  · intro g h hact
    simp [add_role, h, hact]
  · intro g h hact
    simp [add_role, h, hact, reviveG]

/-- Closed instance of `add_role_upsert_spec`: reviving the inactive
`("c", "admin")` row refreshes its description to the provided value. -/
theorem add_role_upsert_spec_witness :
    (add_role "c" "admin" (some "new")
        (⟨[⟨0, "c", "admin", some "old", false⟩], [], [], [], [], 1, 0, 0⟩ : DB)).2.groups
      = updG 0 (reviveG (some "new")) [⟨0, "c", "admin", some "old", false⟩] ∧
    (reviveG (some "new") (⟨0, "c", "admin", some "old", false⟩ : AuthGroup)).is_active = true ∧
    (reviveG (some "new") (⟨0, "c", "admin", some "old", false⟩ : AuthGroup)).description
      = some "new" :=
  (add_role_upsert_spec "c" "admin" (some "new")
      (⟨[⟨0, "c", "admin", some "old", false⟩], [], [], [], [], 1, 0, 0⟩ : DB)).2.2.2
    ⟨0, "c", "admin", some "old", false⟩ (by decide) rfl

/-! ### C8: `which_users_can` is the per-role concatenation -/

theorem foldl_append_eq_flatMap {α β : Type} (f : α → List β) :
    ∀ (l : List α) (acc : List β),
      l.foldl (fun a x => a ++ f x) acc = acc ++ l.flatMap f
  | [], acc => by simp
  | x :: xs, acc => by
    rw [List.foldl_cons, foldl_append_eq_flatMap f xs (acc ++ f x)]
    simp

theorem countP_flatMap' {α β : Type} (p : β → Bool) (f : α → List β) :
    ∀ (l : List α), (l.flatMap f).countP p = (l.map (fun x => (f x).countP p)).sum
  | [] => rfl
  | x :: xs => by
    rw [List.flatMap_cons, List.countP_append, countP_flatMap' p f xs]
    simp

/-- C8: `which_users_can(p)` is exactly the concatenation, over the roles
returned by `which_roles_can(p)`, of each role's active members as
`(user, role)` pairs; consequently a user appears once per qualifying role
association — the number of times a user `u` occurs is the sum over the
qualifying roles of the number of `u`-entries in that role's member list, so
duplicates are preserved rather than flattened. -/
theorem which_users_can_concat (c n : String) (db : DB) :
    which_users_can c n db
      = (which_roles_can c n db).flatMap (fun r => get_role_members c r db) ∧
    ∀ u : String,
      (which_users_can c n db).countP (fun pr => pr.1 == u)
        = ((which_roles_can c n db).map
            (fun r => (get_role_members c r db).countP (fun pr => pr.1 == u))).sum := by
  have h1 : which_users_can c n db
      = (which_roles_can c n db).flatMap (fun r => get_role_members c r db) := by
    rw [which_users_can, foldl_append_eq_flatMap]
    simp
  exact ⟨h1, fun u => by rw [h1, countP_flatMap']⟩

/-! ### C9: the deletes only unlink -/

theorem del_membership_unlink (c u r : String) (db : DB) :
    (del_membership c u r db).1 = true ∧
    (del_membership c u r db).2.members = db.members ∧
    (del_membership c u r db).2.groups = db.groups ∧
    (del_membership c u r db).2.perms = db.perms ∧
    (del_membership c u r db).2.pg = db.pg ∧
    ((del_membership c u r db).2.mg = db.mg ∨
      ∃ m g, m ∈ db.members ∧ g ∈ db.groups ∧ mKey c u m = true ∧ gKey c r g = true ∧
        (m.id, g.id) ∈ db.mg ∧
        (del_membership c u r db).2.mg = db.mg.erase (m.id, g.id)) := by
  by_cases hm : has_membership c u r db = false
  · simp [del_membership, hm]
  · cases hg : db.groups.find? (gKey c r) with
    | none => simp [del_membership, hm, hg]
    | some g =>
      cases hmm : db.members.find? (mKey c u) with
      | none => simp [del_membership, hm, hg, hmm]
      | some m =>
        by_cases hlink : (m.id, g.id) ∈ db.mg
        · refine ⟨?_, ?_, ?_, ?_, ?_, Or.inr ⟨m, g, ?_, ?_, ?_, ?_, hlink, ?_⟩⟩ <;>
            simp [del_membership, hm, hg, hmm, hlink,
              List.mem_of_find?_eq_some hg, List.mem_of_find?_eq_some hmm,
              List.find?_some hg, List.find?_some hmm]
        · simp [del_membership, hm, hg, hmm, hlink]

theorem del_permission_unlink (c r n : String) (db : DB) :
    (del_permission c r n db).1 = true ∧
    (del_permission c r n db).2.members = db.members ∧
    (del_permission c r n db).2.groups = db.groups ∧
    (del_permission c r n db).2.perms = db.perms ∧
    (del_permission c r n db).2.mg = db.mg ∧
    ((del_permission c r n db).2.pg = db.pg ∨
      ∃ p g, p ∈ db.perms ∧ g ∈ db.groups ∧ pKey c n p = true ∧ gKey c r g = true ∧
        (p.id, g.id) ∈ db.pg ∧
        (del_permission c r n db).2.pg = db.pg.erase (p.id, g.id)) := by
  by_cases hp : has_permission c r n db
  · cases hg : db.groups.find? (gKey c r) with
    | none => simp [del_permission, hp, hg]
    | some g =>
      cases hpp : db.perms.find? (pKey c n) with
      | none => simp [del_permission, hp, hg, hpp]
      | some p =>
        by_cases hlink : (p.id, g.id) ∈ db.pg
        · refine ⟨?_, ?_, ?_, ?_, ?_, Or.inr ⟨p, g, ?_, ?_, ?_, ?_, hlink, ?_⟩⟩ <;>
            simp [del_permission, hp, hg, hpp, hlink,
              List.mem_of_find?_eq_some hg, List.mem_of_find?_eq_some hpp,
              List.find?_some hg, List.find?_some hpp]
        · simp [del_permission, hp, hg, hpp, hlink]
  · simp [del_permission, hp]

/-- C9: `del_permission(r, n)` and `del_membership(u, r)` remove only the
association-table link: every entity row (groups, memberships, permissions)
survives unchanged, the only possible state change is erasing the link between
the first-matching `(c, u)` membership (resp. `(c, n)` permission) and the
first-matching `(c, r)` group, and both calls return true unconditionally —
in particular whenever the post-state no longer contains the link. -/
theorem del_ops_unlink_only (c u r n : String) (db : DB) :
    ((del_membership c u r db).1 = true ∧
      (del_membership c u r db).2.members = db.members ∧
      (del_membership c u r db).2.groups = db.groups ∧
      (del_membership c u r db).2.perms = db.perms ∧
      (del_membership c u r db).2.pg = db.pg ∧
      ((del_membership c u r db).2.mg = db.mg ∨
        ∃ m g, m ∈ db.members ∧ g ∈ db.groups ∧ mKey c u m = true ∧ gKey c r g = true ∧
          (m.id, g.id) ∈ db.mg ∧
          (del_membership c u r db).2.mg = db.mg.erase (m.id, g.id))) ∧
    ((del_permission c r n db).1 = true ∧
      (del_permission c r n db).2.members = db.members ∧
      (del_permission c r n db).2.groups = db.groups ∧
      (del_permission c r n db).2.perms = db.perms ∧
      (del_permission c r n db).2.mg = db.mg ∧
      ((del_permission c r n db).2.pg = db.pg ∨
        ∃ p g, p ∈ db.perms ∧ g ∈ db.groups ∧ pKey c n p = true ∧ gKey c r g = true ∧
          (p.id, g.id) ∈ db.pg ∧
          (del_permission c r n db).2.pg = db.pg.erase (p.id, g.id))) :=
  ⟨del_membership_unlink c u r db, del_permission_unlink c r n db⟩

/-! ### C2: tenant isolation

Administrative writes under one tenant leave every read under any other
tenant unchanged.  The store states reachable by the service satisfy a
well-formedness invariant `WF`: primary keys are below the auto-increment
counters and unique, and every association link joins two existing rows of
the same tenant (spec invariant I1).  Each write is shown to produce only a
`Delta`-shaped change — rows and links touching the writing tenant only —
and `Delta`-shaped changes are invisible to the other tenant's reads. -/

/-- Well-formedness of a store state: ids are fresh w.r.t. the counters and
unique per table, and association links join existing same-tenant rows. -/
def WF (db : DB) : Prop :=
  (∀ g ∈ db.groups, g.id < db.nextGid) ∧
  (∀ m ∈ db.members, m.id < db.nextMid) ∧
  (∀ p ∈ db.perms, p.id < db.nextPid) ∧
  (∀ g ∈ db.groups, ∀ g' ∈ db.groups, g.id = g'.id → g = g') ∧
  (∀ m ∈ db.members, ∀ m' ∈ db.members, m.id = m'.id → m = m') ∧
  (∀ p ∈ db.perms, ∀ p' ∈ db.perms, p.id = p'.id → p = p') ∧
  (∀ l ∈ db.mg, ∃ m ∈ db.members, ∃ g ∈ db.groups, l = (m.id, g.id) ∧ m.creator = g.creator) ∧
  (∀ l ∈ db.pg, ∃ p ∈ db.perms, ∃ g ∈ db.groups, l = (p.id, g.id) ∧ p.creator = g.creator)

/-- The administrative writes of `AuthorizationService`, with the tenant left
as a parameter of application. -/
inductive WriteOp where
  | wAddRole (r : String) (d : Option String)
  | wDelRole (r : String)
  | wAddPerm (r n : String)
  | wDelPerm (r n : String)
  | wAddMem (u r : String)
  | wDelMem (u r : String)
  deriving Repr, DecidableEq

/-- Apply one administrative write under tenant `c` (state part). -/
def applyW (c : String) (w : WriteOp) (db : DB) : DB :=
  match w with
  | .wAddRole r d => (add_role c r d db).2
  | .wDelRole r => (del_role c r db).2
  | .wAddPerm r n => (add_permission c r n db).2
  | .wDelPerm r n => (del_permission c r n db).2
  | .wAddMem u r => (add_membership c u r db).2
  | .wDelMem u r => (del_membership c u r db).2

/-- Apply a sequence of administrative writes under tenant `c`. -/
def applyWs (c : String) (ws : List WriteOp) (db : DB) : DB :=
  ws.foldl (fun d w => applyW c w d) db

/-- Shape of the change a single write under `c1` can make to the group
table: no change, a fresh row owned by `c1`, or an id/creator-preserving
update of a row owned by `c1`. -/
def GroupsDelta (c1 : String) (db db' : DB) : Prop :=
  (db'.groups = db.groups ∧ db'.nextGid = db.nextGid) ∨
  (∃ r d, db'.groups = db.groups ++ [⟨db.nextGid, c1, r, d, true⟩] ∧
    db'.nextGid = db.nextGid + 1) ∨
  (∃ g₀ f, g₀ ∈ db.groups ∧ g₀.creator = c1 ∧
    (∀ x : AuthGroup, (f x).id = x.id ∧ (f x).creator = x.creator) ∧
    db'.groups = updG g₀.id f db.groups ∧ db'.nextGid = db.nextGid)

/-- Shape of the change to the membership table: none, or a fresh `c1` row. -/
def MembersDelta (c1 : String) (db db' : DB) : Prop :=
  (db'.members = db.members ∧ db'.nextMid = db.nextMid) ∨
  (∃ u, db'.members = db.members ++ [⟨db.nextMid, c1, u, true⟩] ∧
    db'.nextMid = db.nextMid + 1)

/-- Shape of the change to the permission table: none, or a fresh `c1` row. -/
def PermsDelta (c1 : String) (db db' : DB) : Prop :=
  (db'.perms = db.perms ∧ db'.nextPid = db.nextPid) ∨
  (∃ n, db'.perms = db.perms ++ [⟨db.nextPid, c1, n, true⟩] ∧
    db'.nextPid = db.nextPid + 1)

/-- Shape of the change to `membership_groups`: none, or one link gained or
lost between a `c1` membership and a `c1` group. -/
def MgDelta (c1 : String) (db db' : DB) : Prop :=
  db'.mg = db.mg ∨
  (∃ mid gid, db'.mg = db.mg ++ [(mid, gid)] ∧
    (∃ m ∈ db'.members, m.id = mid ∧ m.creator = c1) ∧
    (∃ g ∈ db.groups, g.id = gid ∧ g.creator = c1)) ∨
  (∃ mid gid, db'.mg = db.mg.erase (mid, gid) ∧
    (∃ m ∈ db.members, m.id = mid ∧ m.creator = c1) ∧
    (∃ g ∈ db.groups, g.id = gid ∧ g.creator = c1))

/-- Shape of the change to `permission_groups`. -/
def PgDelta (c1 : String) (db db' : DB) : Prop :=
  db'.pg = db.pg ∨
  (∃ pid gid, db'.pg = db.pg ++ [(pid, gid)] ∧
    (∃ p ∈ db'.perms, p.id = pid ∧ p.creator = c1) ∧
    (∃ g ∈ db.groups, g.id = gid ∧ g.creator = c1)) ∨
  (∃ pid gid, db'.pg = db.pg.erase (pid, gid) ∧
    (∃ p ∈ db.perms, p.id = pid ∧ p.creator = c1) ∧
    (∃ g ∈ db.groups, g.id = gid ∧ g.creator = c1))

/-- Every state change a single administrative write under `c1` can make. -/
def Delta (c1 : String) (db db' : DB) : Prop :=
  GroupsDelta c1 db db' ∧ MembersDelta c1 db db' ∧ PermsDelta c1 db db' ∧
    MgDelta c1 db db' ∧ PgDelta c1 db db'

theorem delta_refl (c1 : String) (db : DB) : Delta c1 db db :=
  ⟨Or.inl ⟨rfl, rfl⟩, Or.inl ⟨rfl, rfl⟩, Or.inl ⟨rfl, rfl⟩, Or.inl rfl, Or.inl rfl⟩

theorem add_role_delta (c r : String) (d : Option String) (db : DB) :
    Delta c db (add_role c r d db).2 := by
  cases h : db.groups.find? (gKey c r) with
  | some g =>
    cases hact : g.is_active with
    | true =>
      have e : (add_role c r d db).2 = db := by simp [add_role, h, hact]
      rw [e]; exact delta_refl c db
    | false =>
      have hgc : g.creator = c := by
        have hp := List.find?_some h
        simp [gKey] at hp
        exact hp.1
      have e : (add_role c r d db).2
          = { db with groups := updG g.id (reviveG d) db.groups } := by
        simp [add_role, h, hact]
      rw [e]
      exact ⟨Or.inr (Or.inr ⟨g, reviveG d, List.mem_of_find?_eq_some h, hgc,
          fun x => ⟨rfl, rfl⟩, rfl, rfl⟩),
        Or.inl ⟨rfl, rfl⟩, Or.inl ⟨rfl, rfl⟩, Or.inl rfl, Or.inl rfl⟩
  | none =>
    have e : (add_role c r d db).2 = { db with
        groups := db.groups ++ [⟨db.nextGid, c, r, d, true⟩]
        nextGid := db.nextGid + 1 } := by
      simp [add_role, h]
    rw [e]
    exact ⟨Or.inr (Or.inl ⟨r, d, rfl, rfl⟩),
      Or.inl ⟨rfl, rfl⟩, Or.inl ⟨rfl, rfl⟩, Or.inl rfl, Or.inl rfl⟩

theorem del_role_delta (c r : String) (db : DB) :
    Delta c db (del_role c r db).2 := by
  cases h : db.groups.find? (gKey c r) with
  | some g =>
    cases hact : g.is_active with
    | false =>
      have e : (del_role c r db).2 = db := by simp [del_role, h, hact]
      rw [e]; exact delta_refl c db
    | true =>
      have hgc : g.creator = c := by
        have hp := List.find?_some h
        simp [gKey] at hp
        exact hp.1
      have e : (del_role c r db).2
          = { db with groups := updG g.id deactivateG db.groups } := by
        simp [del_role, h, hact]
      rw [e]
      exact ⟨Or.inr (Or.inr ⟨g, deactivateG, List.mem_of_find?_eq_some h, hgc,
          fun x => ⟨rfl, rfl⟩, rfl, rfl⟩),
        Or.inl ⟨rfl, rfl⟩, Or.inl ⟨rfl, rfl⟩, Or.inl rfl, Or.inl rfl⟩
  | none =>
    have e : (del_role c r db).2 = db := by simp [del_role, h]
    rw [e]; exact delta_refl c db

theorem add_membership_delta (c u r : String) (db : DB) :
    Delta c db (add_membership c u r db).2 := by
  cases hg : db.groups.find? (gAct c r) with
  | none =>
    have e : (add_membership c u r db).2 = db := by simp [add_membership, hg]
    rw [e]; exact delta_refl c db
  | some g =>
    have hgc : g.creator = c := by
      have hp := List.find?_some hg
      simp [gAct] at hp
      exact hp.1.1
    have hgm : g ∈ db.groups := List.mem_of_find?_eq_some hg
    cases hm : db.members.find? (mKey c u) with
    | some m =>
      have hmc : m.creator = c := by
        have hp := List.find?_some hm
        simp [mKey] at hp
        exact hp.1
      by_cases hlink : (m.id, g.id) ∈ db.mg
      · have e : (add_membership c u r db).2 = db := by simp [add_membership, hg, hm, hlink]
        rw [e]; exact delta_refl c db
      · have e : (add_membership c u r db).2
            = { db with mg := db.mg ++ [(m.id, g.id)] } := by
          simp [add_membership, hg, hm, hlink]
        rw [e]
        exact ⟨Or.inl ⟨rfl, rfl⟩, Or.inl ⟨rfl, rfl⟩, Or.inl ⟨rfl, rfl⟩,
          Or.inr (Or.inl ⟨m.id, g.id, rfl,
            ⟨m, List.mem_of_find?_eq_some hm, rfl, hmc⟩, ⟨g, hgm, rfl, hgc⟩⟩),
          Or.inl rfl⟩
    | none =>
      have e : (add_membership c u r db).2 = { db with
          members := db.members ++ [⟨db.nextMid, c, u, true⟩]
          nextMid := db.nextMid + 1
          mg := db.mg ++ [(db.nextMid, g.id)] } := by
        simp [add_membership, hg, hm]
      rw [e]
      refine ⟨Or.inl ⟨rfl, rfl⟩, Or.inr ⟨u, rfl, rfl⟩, Or.inl ⟨rfl, rfl⟩,
        Or.inr (Or.inl ⟨db.nextMid, g.id, rfl, ?_, ⟨g, hgm, rfl, hgc⟩⟩), Or.inl rfl⟩
      exact ⟨⟨db.nextMid, c, u, true⟩,
        List.mem_append_right _ (List.mem_singleton.mpr rfl), rfl, rfl⟩

theorem del_membership_delta (c u r : String) (db : DB) :
    Delta c db (del_membership c u r db).2 := by
  by_cases hhm : has_membership c u r db = false
  · have e : (del_membership c u r db).2 = db := by simp [del_membership, hhm]
    rw [e]; exact delta_refl c db
  · cases hg : db.groups.find? (gKey c r) with
    | none =>
      have e : (del_membership c u r db).2 = db := by simp [del_membership, hhm, hg]
      rw [e]; exact delta_refl c db
    | some g =>
      have hgc : g.creator = c := by
        have hp := List.find?_some hg
        simp [gKey] at hp
        exact hp.1
      cases hm : db.members.find? (mKey c u) with
      | none =>
        have e : (del_membership c u r db).2 = db := by simp [del_membership, hhm, hg, hm]
        rw [e]; exact delta_refl c db
      | some m =>
        have hmc : m.creator = c := by
          have hp := List.find?_some hm
          simp [mKey] at hp
          exact hp.1
        by_cases hlink : (m.id, g.id) ∈ db.mg
        · have e : (del_membership c u r db).2
              = { db with mg := db.mg.erase (m.id, g.id) } := by
            simp [del_membership, hhm, hg, hm, hlink]
          rw [e]
          exact ⟨Or.inl ⟨rfl, rfl⟩, Or.inl ⟨rfl, rfl⟩, Or.inl ⟨rfl, rfl⟩,
            Or.inr (Or.inr ⟨m.id, g.id, rfl,
              ⟨m, List.mem_of_find?_eq_some hm, rfl, hmc⟩,
              ⟨g, List.mem_of_find?_eq_some hg, rfl, hgc⟩⟩),
            Or.inl rfl⟩
        · have e : (del_membership c u r db).2 = db := by
            simp [del_membership, hhm, hg, hm, hlink]
          rw [e]; exact delta_refl c db

theorem add_permission_delta (c r n : String) (db : DB) :
    Delta c db (add_permission c r n db).2 := by
  by_cases hhp : has_permission c r n db
  · have e : (add_permission c r n db).2 = db := by simp [add_permission, hhp]
    rw [e]; exact delta_refl c db
  · cases hg : db.groups.find? (gAct c r) with
    | none =>
      have e : (add_permission c r n db).2 = db := by simp [add_permission, hhp, hg]
      rw [e]; exact delta_refl c db
    | some g =>
      have hgc : g.creator = c := by
        have hp := List.find?_some hg
        simp [gAct] at hp
        exact hp.1.1
      have hgm : g ∈ db.groups := List.mem_of_find?_eq_some hg
      cases hpm : db.perms.find? (pKey c n) with
      | some p =>
        have hpc : p.creator = c := by
          have hp := List.find?_some hpm
          simp [pKey] at hp
          exact hp.1
        by_cases hlink : (p.id, g.id) ∈ db.pg
        · have e : (add_permission c r n db).2 = db := by
            simp [add_permission, hhp, hg, hpm, hlink]
          rw [e]; exact delta_refl c db
        · have e : (add_permission c r n db).2
              = { db with pg := db.pg ++ [(p.id, g.id)] } := by
            simp [add_permission, hhp, hg, hpm, hlink]
          rw [e]
          exact ⟨Or.inl ⟨rfl, rfl⟩, Or.inl ⟨rfl, rfl⟩, Or.inl ⟨rfl, rfl⟩, Or.inl rfl,
            Or.inr (Or.inl ⟨p.id, g.id, rfl,
              ⟨p, List.mem_of_find?_eq_some hpm, rfl, hpc⟩, ⟨g, hgm, rfl, hgc⟩⟩)⟩
      | none =>
        have e : (add_permission c r n db).2 = { db with
            perms := db.perms ++ [⟨db.nextPid, c, n, true⟩]
            nextPid := db.nextPid + 1
            pg := db.pg ++ [(db.nextPid, g.id)] } := by
          simp [add_permission, hhp, hg, hpm]
        rw [e]
        refine ⟨Or.inl ⟨rfl, rfl⟩, Or.inl ⟨rfl, rfl⟩, Or.inr ⟨n, rfl, rfl⟩, Or.inl rfl,
          Or.inr (Or.inl ⟨db.nextPid, g.id, rfl, ?_, ⟨g, hgm, rfl, hgc⟩⟩)⟩
        exact ⟨⟨db.nextPid, c, n, true⟩,
          List.mem_append_right _ (List.mem_singleton.mpr rfl), rfl, rfl⟩

theorem del_permission_delta (c r n : String) (db : DB) :
    Delta c db (del_permission c r n db).2 := by
  by_cases hhp : has_permission c r n db
  · cases hg : db.groups.find? (gKey c r) with
    | none =>
      have e : (del_permission c r n db).2 = db := by simp [del_permission, hhp, hg]
      rw [e]; exact delta_refl c db
    | some g =>
      have hgc : g.creator = c := by
        have hp := List.find?_some hg
        simp [gKey] at hp
        exact hp.1
      cases hpm : db.perms.find? (pKey c n) with
      | none =>
        have e : (del_permission c r n db).2 = db := by simp [del_permission, hhp, hg, hpm]
        rw [e]; exact delta_refl c db
      | some p =>
        have hpc : p.creator = c := by
          have hp := List.find?_some hpm
          simp [pKey] at hp
          exact hp.1
        by_cases hlink : (p.id, g.id) ∈ db.pg
        · have e : (del_permission c r n db).2
              = { db with pg := db.pg.erase (p.id, g.id) } := by
            simp [del_permission, hhp, hg, hpm, hlink]
          rw [e]
          exact ⟨Or.inl ⟨rfl, rfl⟩, Or.inl ⟨rfl, rfl⟩, Or.inl ⟨rfl, rfl⟩, Or.inl rfl,
            Or.inr (Or.inr ⟨p.id, g.id, rfl,
              ⟨p, List.mem_of_find?_eq_some hpm, rfl, hpc⟩,
              ⟨g, List.mem_of_find?_eq_some hg, rfl, hgc⟩⟩)⟩
        · have e : (del_permission c r n db).2 = db := by
            simp [del_permission, hhp, hg, hpm, hlink]
          rw [e]; exact delta_refl c db
  · have e : (del_permission c r n db).2 = db := by simp [del_permission, hhp]
    rw [e]; exact delta_refl c db

/-- Every single write produces a `Delta`-shaped change. -/
theorem applyW_delta (c : String) (w : WriteOp) (db : DB) :
    Delta c db (applyW c w db) := by
  cases w with
  | wAddRole r d => exact add_role_delta c r d db
  | wDelRole r => exact del_role_delta c r db
  | wAddPerm r n => exact add_permission_delta c r n db
  | wDelPerm r n => exact del_permission_delta c r n db
  | wAddMem u r => exact add_membership_delta c u r db
  | wDelMem u r => exact del_membership_delta c u r db

theorem upd_id {f : AuthGroup → AuthGroup}
    (hf : ∀ x, (f x).id = x.id ∧ (f x).creator = x.creator) (i : Nat) (x : AuthGroup) :
    (if x.id == i then f x else x).id = x.id := by
  by_cases hx : x.id == i <;> simp [hx, (hf x).1]

theorem upd_creator {f : AuthGroup → AuthGroup}
    (hf : ∀ x, (f x).id = x.id ∧ (f x).creator = x.creator) (i : Nat) (x : AuthGroup) :
    (if x.id == i then f x else x).creator = x.creator := by
  by_cases hx : x.id == i <;> simp [hx, (hf x).2]

/-- A pre-state group row survives a `GroupsDelta` with its id and creator. -/
theorem groups_lift {c1 : String} {db db' : DB} (hGD : GroupsDelta c1 db db')
    {g : AuthGroup} (hg : g ∈ db.groups) :
    ∃ g' ∈ db'.groups, g'.id = g.id ∧ g'.creator = g.creator := by
  rcases hGD with ⟨he, -⟩ | ⟨r, d, he, -⟩ | ⟨g₀, f, -, -, hf, he, -⟩
  · exact ⟨g, he ▸ hg, rfl, rfl⟩
  · exact ⟨g, he ▸ List.mem_append_left _ hg, rfl, rfl⟩
  · refine ⟨if g.id == g₀.id then f g else g, ?_, upd_id hf g₀.id g, upd_creator hf g₀.id g⟩
    rw [he, updG]
    exact List.mem_map_of_mem _ hg

theorem members_lift {c1 : String} {db db' : DB} (hMD : MembersDelta c1 db db')
    {m : AuthMembership} (hm : m ∈ db.members) : m ∈ db'.members := by
  rcases hMD with ⟨he, -⟩ | ⟨u, he, -⟩
  · exact he ▸ hm
  · exact he ▸ List.mem_append_left _ hm

theorem perms_lift {c1 : String} {db db' : DB} (hPD : PermsDelta c1 db db')
    {p : AuthPermission} (hp : p ∈ db.perms) : p ∈ db'.perms := by
  rcases hPD with ⟨he, -⟩ | ⟨n, he, -⟩
  · exact he ▸ hp
  · exact he ▸ List.mem_append_left _ hp

/-- Well-formedness is preserved along any `Delta`-shaped change. -/
theorem wf_delta {c1 : String} {db db' : DB} (hwf : WF db) (hd : Delta c1 db db') :
    WF db' := by
  obtain ⟨hgf, hmf, hpf, hgu, hmu, hpu, hmg, hpg⟩ := hwf
  obtain ⟨hGD, hMD, hPD, hMG, hPG⟩ := hd
  have holdmg : ∀ l ∈ db.mg, ∃ m ∈ db'.members, ∃ g ∈ db'.groups,
      l = (m.id, g.id) ∧ m.creator = g.creator := by
    intro l hl
    obtain ⟨m, hm, g, hg, hlid, hcr⟩ := hmg l hl
    obtain ⟨g', hg', hid, hcr'⟩ := groups_lift hGD hg
    exact ⟨m, members_lift hMD hm, g', hg', by rw [hlid, hid], by rw [hcr, ← hcr']⟩
  have holdpg : ∀ l ∈ db.pg, ∃ p ∈ db'.perms, ∃ g ∈ db'.groups,
      l = (p.id, g.id) ∧ p.creator = g.creator := by
    intro l hl
    obtain ⟨p, hp, g, hg, hlid, hcr⟩ := hpg l hl
    obtain ⟨g', hg', hid, hcr'⟩ := groups_lift hGD hg
    exact ⟨p, perms_lift hPD hp, g', hg', by rw [hlid, hid], by rw [hcr, ← hcr']⟩
  refine ⟨?_, ?_, ?_, ?_, ?_, ?_, ?_, ?_⟩
  · -- group ids below the counter
    rcases hGD with ⟨he, hn⟩ | ⟨r, d, he, hn⟩ | ⟨g₀, f, -, -, hf, he, hn⟩
    · rw [he, hn]; exact hgf
    · rw [he, hn]
      intro g hg
      rcases List.mem_append.mp hg with h | h
      · exact Nat.lt_succ_of_lt (hgf g h)
      · rw [List.mem_singleton.mp h]; exact Nat.lt_succ_self _
    · rw [he, hn, updG]
      intro g hg
      obtain ⟨x, hx, rfl⟩ := List.mem_map.mp hg
      rw [upd_id hf g₀.id x]
      exact hgf x hx
  · -- membership ids below the counter
    rcases hMD with ⟨he, hn⟩ | ⟨u, he, hn⟩
    · rw [he, hn]; exact hmf
    · rw [he, hn]
      intro m hm
      rcases List.mem_append.mp hm with h | h
      · exact Nat.lt_succ_of_lt (hmf m h)
      · rw [List.mem_singleton.mp h]; exact Nat.lt_succ_self _
  · -- permission ids below the counter
    rcases hPD with ⟨he, hn⟩ | ⟨n, he, hn⟩
    · rw [he, hn]; exact hpf
    · rw [he, hn]
      intro p hp
      rcases List.mem_append.mp hp with h | h
      · exact Nat.lt_succ_of_lt (hpf p h)
      · rw [List.mem_singleton.mp h]; exact Nat.lt_succ_self _
  · -- group id uniqueness
    rcases hGD with ⟨he, -⟩ | ⟨r, d, he, -⟩ | ⟨g₀, f, -, -, hf, he, -⟩
    · rw [he]; exact hgu
    · rw [he]
      intro g hg g' hg' hid
      rcases List.mem_append.mp hg with h | h <;>
        rcases List.mem_append.mp hg' with h' | h'
      · exact hgu g h g' h' hid
      · rw [List.mem_singleton.mp h'] at hid
        exact absurd hid (Nat.ne_of_lt (hgf g h))
      · rw [List.mem_singleton.mp h] at hid
        exact absurd hid.symm (Nat.ne_of_lt (hgf g' h'))
      · rw [List.mem_singleton.mp h, List.mem_singleton.mp h']
    · rw [he, updG]
      intro g hg g' hg' hid
      obtain ⟨x, hx, rfl⟩ := List.mem_map.mp hg
      obtain ⟨y, hy, rfl⟩ := List.mem_map.mp hg'
      rw [upd_id hf g₀.id x, upd_id hf g₀.id y] at hid
      rw [hgu x hx y hy hid]
  · -- membership id uniqueness
    rcases hMD with ⟨he, -⟩ | ⟨u, he, -⟩
    · rw [he]; exact hmu
    · rw [he]
      intro m hm m' hm' hid
      rcases List.mem_append.mp hm with h | h <;>
        rcases List.mem_append.mp hm' with h' | h'
      · exact hmu m h m' h' hid
      · rw [List.mem_singleton.mp h'] at hid
        exact absurd hid (Nat.ne_of_lt (hmf m h))
      · rw [List.mem_singleton.mp h] at hid
        exact absurd hid.symm (Nat.ne_of_lt (hmf m' h'))
      · rw [List.mem_singleton.mp h, List.mem_singleton.mp h']
  · -- permission id uniqueness
    rcases hPD with ⟨he, -⟩ | ⟨n, he, -⟩
    · rw [he]; exact hpu
    · rw [he]
      intro p hp p' hp' hid
      rcases List.mem_append.mp hp with h | h <;>
        rcases List.mem_append.mp hp' with h' | h'
      · exact hpu p h p' h' hid
      · rw [List.mem_singleton.mp h'] at hid
        exact absurd hid (Nat.ne_of_lt (hpf p h))
      · rw [List.mem_singleton.mp h] at hid
        exact absurd hid.symm (Nat.ne_of_lt (hpf p' h'))
      · rw [List.mem_singleton.mp h, List.mem_singleton.mp h']
  · -- membership links join existing same-tenant rows
    rcases hMG with he | ⟨mid, gid, he, ⟨m, hm', hmid, hmc⟩, ⟨g, hg, hgid, hgc⟩⟩ |
        ⟨mid, gid, he, -, -⟩
    · rw [he]; exact holdmg
    · rw [he]
      intro l hl
      rcases List.mem_append.mp hl with h | h
      · exact holdmg l h
      · obtain ⟨g', hg', hid, hcr'⟩ := groups_lift hGD hg
        rw [List.mem_singleton.mp h]
        exact ⟨m, hm', g', hg', by rw [hmid, hid, hgid], by rw [hmc, hcr', hgc]⟩
    · rw [he]
      intro l hl
      exact holdmg l (List.mem_of_mem_erase hl)
  · -- permission links join existing same-tenant rows
    rcases hPG with he | ⟨pid, gid, he, ⟨p, hp', hpid, hpc⟩, ⟨g, hg, hgid, hgc⟩⟩ |
        ⟨pid, gid, he, -, -⟩
    · rw [he]; exact holdpg
    · rw [he]
      intro l hl
      rcases List.mem_append.mp hl with h | h
      · exact holdpg l h
      · obtain ⟨g', hg', hid, hcr'⟩ := groups_lift hGD hg
        rw [List.mem_singleton.mp h]
        exact ⟨p, hp', g', hg', by rw [hpid, hid, hgid], by rw [hpc, hcr', hgc]⟩
    · rw [he]
      intro l hl
      exact holdpg l (List.mem_of_mem_erase hl)

theorem WF.gFresh {db : DB} (h : WF db) : ∀ g ∈ db.groups, g.id < db.nextGid := h.1

theorem WF.mFresh {db : DB} (h : WF db) : ∀ m ∈ db.members, m.id < db.nextMid := h.2.1

theorem WF.pFresh {db : DB} (h : WF db) : ∀ p ∈ db.perms, p.id < db.nextPid := h.2.2.1

theorem WF.gUniq {db : DB} (h : WF db) :
    ∀ g ∈ db.groups, ∀ g' ∈ db.groups, g.id = g'.id → g = g' := h.2.2.2.1

theorem WF.mUniq {db : DB} (h : WF db) :
    ∀ m ∈ db.members, ∀ m' ∈ db.members, m.id = m'.id → m = m' := h.2.2.2.2.1

theorem WF.pUniq {db : DB} (h : WF db) :
    ∀ p ∈ db.perms, ∀ p' ∈ db.perms, p.id = p'.id → p = p' := h.2.2.2.2.2.1

theorem WF.mgOk {db : DB} (h : WF db) :
    ∀ l ∈ db.mg, ∃ m ∈ db.members, ∃ g ∈ db.groups,
      l = (m.id, g.id) ∧ m.creator = g.creator := h.2.2.2.2.2.2.1

theorem WF.pgOk {db : DB} (h : WF db) :
    ∀ l ∈ db.pg, ∃ p ∈ db.perms, ∃ g ∈ db.groups,
      l = (p.id, g.id) ∧ p.creator = g.creator := h.2.2.2.2.2.2.2

/-- A predicate that forces the `c2` tenant vanishes on `c1` rows. -/
theorem pred_false_of_creator {α : Type} {p : α → Bool} {t : α → String}
    {c1 c2 : String} (hne : c1 ≠ c2) (hp : ∀ x, p x = true → t x = c2)
    {x : α} (hxc : t x = c1) : p x = false := by
  cases hpx : p x with
  | false => rfl
  | true => exact absurd (hxc.symm.trans (hp x hpx)) hne

theorem filter_map_eq₂ {α : Type} (t : α → α) (q' q : α → Bool) :
    ∀ (l : List α), (∀ x ∈ l, q' (t x) = q x) → (∀ x ∈ l, q x = true → t x = x) →
      (l.map t).filter q' = l.filter q
  | [], _, _ => rfl
  | x :: xs, h, h2 => by
    have hx := h x (List.mem_cons_self x xs)
    have ih := filter_map_eq₂ t q' q xs (fun y hy => h y (List.mem_cons_of_mem x hy))
      (fun y hy => h2 y (List.mem_cons_of_mem x hy))
    cases hqx : q x with
    | true =>
      rw [hqx] at hx
      simp only [List.map_cons, List.filter_cons, hx, hqx, if_true]
      rw [h2 x (List.mem_cons_self x xs) hqx, ih]
    | false =>
      rw [hqx] at hx
      simp only [List.map_cons, List.filter_cons, hx, hqx]
      exact ih

/-- Reads that filter on tenant `c2` see the same first group row after a
`c1` write. -/
theorem delta_find?_groups {c1 c2 : String} {db db' : DB} (hne : c1 ≠ c2)
    (hwf : WF db) (hd : Delta c1 db db') (p : AuthGroup → Bool)
    (hp : ∀ g, p g = true → g.creator = c2) :
    db'.groups.find? p = db.groups.find? p := by
  rcases hd.1 with ⟨he, -⟩ | ⟨r, d, he, -⟩ | ⟨g₀, f, hg₀, hg₀c, hf, he, -⟩
  · rw [he]
  · rw [he]
    exact find?_append_neg _
      (pred_false_of_creator (t := AuthGroup.creator) hne hp rfl)
  · rw [he, updG]
    apply find?_map_fix
    · intro x hx
      by_cases hxi : x.id == g₀.id
      · have hxeq : x = g₀ := hwf.gUniq x hx g₀ hg₀ (beq_iff_eq.mp hxi)
        have hxc : x.creator = c1 := by rw [hxeq]; exact hg₀c
        have hfxc : (f x).creator = c1 := by rw [(hf x).2]; exact hxc
        rw [if_pos hxi,
          pred_false_of_creator (t := AuthGroup.creator) hne hp hfxc,
          pred_false_of_creator (t := AuthGroup.creator) hne hp hxc]
      · rw [if_neg (by simpa using hxi)]
    · intro x hx hpx
      by_cases hxi : x.id == g₀.id
      · have hxeq : x = g₀ := hwf.gUniq x hx g₀ hg₀ (beq_iff_eq.mp hxi)
        have hxc : x.creator = c1 := by rw [hxeq]; exact hg₀c
        exact absurd (hxc.symm.trans (hp x hpx)) hne
      · rw [if_neg (by simpa using hxi)]

theorem delta_filter_groups {c1 c2 : String} {db db' : DB} (hne : c1 ≠ c2)
    (hwf : WF db) (hd : Delta c1 db db') (p : AuthGroup → Bool)
    (hp : ∀ g, p g = true → g.creator = c2) :
    db'.groups.filter p = db.groups.filter p := by
  rcases hd.1 with ⟨he, -⟩ | ⟨r, d, he, -⟩ | ⟨g₀, f, hg₀, hg₀c, hf, he, -⟩
  · rw [he]
  · rw [he]
    exact filter_append_neg _
      (pred_false_of_creator (t := AuthGroup.creator) hne hp rfl)
  · rw [he, updG]
    apply filter_map_fix
    · intro x hx
      by_cases hxi : x.id == g₀.id
      · have hxeq : x = g₀ := hwf.gUniq x hx g₀ hg₀ (beq_iff_eq.mp hxi)
        have hxc : x.creator = c1 := by rw [hxeq]; exact hg₀c
        have hfxc : (f x).creator = c1 := by rw [(hf x).2]; exact hxc
        rw [if_pos hxi,
          pred_false_of_creator (t := AuthGroup.creator) hne hp hfxc,
          pred_false_of_creator (t := AuthGroup.creator) hne hp hxc]
      · rw [if_neg (by simpa using hxi)]
    · intro x hx hpx
      by_cases hxi : x.id == g₀.id
      · have hxeq : x = g₀ := hwf.gUniq x hx g₀ hg₀ (beq_iff_eq.mp hxi)
        have hxc : x.creator = c1 := by rw [hxeq]; exact hg₀c
        exact absurd (hxc.symm.trans (hp x hpx)) hne
      · rw [if_neg (by simpa using hxi)]

theorem delta_find?_members {c1 c2 : String} {db db' : DB} (hne : c1 ≠ c2)
    (hd : Delta c1 db db') (p : AuthMembership → Bool)
    (hp : ∀ m, p m = true → m.creator = c2) :
    db'.members.find? p = db.members.find? p := by
  rcases hd.2.1 with ⟨he, -⟩ | ⟨u, he, -⟩
  · rw [he]
  · rw [he]
    exact find?_append_neg _
      (pred_false_of_creator (t := AuthMembership.creator) hne hp rfl)

theorem delta_find?_perms {c1 c2 : String} {db db' : DB} (hne : c1 ≠ c2)
    (hd : Delta c1 db db') (p : AuthPermission → Bool)
    (hp : ∀ q, p q = true → q.creator = c2) :
    db'.perms.find? p = db.perms.find? p := by
  rcases hd.2.2.1 with ⟨he, -⟩ | ⟨n, he, -⟩
  · rw [he]
  · rw [he]
    exact find?_append_neg _
      (pred_false_of_creator (t := AuthPermission.creator) hne hp rfl)

/-- The `membership_groups` links of a `c2` membership are untouched by a
`c1` write. -/
theorem delta_mg_m {c1 c2 : String} {db db' : DB} (hne : c1 ≠ c2)
    (hwf : WF db) (hwf' : WF db') (hd : Delta c1 db db')
    {m : AuthMembership} (hm : m ∈ db.members) (hmc : m.creator = c2) (gid : Nat) :
    ((m.id, gid) ∈ db'.mg) ↔ ((m.id, gid) ∈ db.mg) := by
  rcases hd.2.2.2.1 with he | ⟨mid, gid', he, ⟨m₁, hm₁, hmid, hm₁c⟩, -⟩ |
      ⟨mid, gid', he, ⟨m₁, hm₁, hmid, hm₁c⟩, -⟩
  · rw [he]
  · rw [he]
    have hnp : (m.id, gid) ≠ (mid, gid') := by
      intro hpair
      have h1 : m.id = mid := congrArg Prod.fst hpair
      have hmm' : m ∈ db'.members := members_lift hd.2.1 hm
      have heq : m = m₁ := hwf'.mUniq m hmm' m₁ hm₁ (h1.trans hmid.symm)
      have : m.creator = c1 := by rw [heq]; exact hm₁c
      exact hne (this.symm.trans hmc)
    constructor
    · intro h
      rcases List.mem_append.mp h with h | h
      · exact h
      · exact absurd (List.mem_singleton.mp h) hnp
    · exact fun h => List.mem_append_left _ h
  · rw [he]
    have hnp : (m.id, gid) ≠ (mid, gid') := by
      intro hpair
      have h1 : m.id = mid := congrArg Prod.fst hpair
      have heq : m = m₁ := hwf.mUniq m hm m₁ hm₁ (h1.trans hmid.symm)
      have : m.creator = c1 := by rw [heq]; exact hm₁c
      exact hne (this.symm.trans hmc)
    exact List.mem_erase_of_ne hnp

/-- The `membership_groups` links of a `c2` group are untouched by a `c1`
write. -/
theorem delta_mg_g {c1 c2 : String} {db db' : DB} (hne : c1 ≠ c2)
    (hwf : WF db) (hd : Delta c1 db db')
    {g : AuthGroup} (hg : g ∈ db.groups) (hgc : g.creator = c2) (mid : Nat) :
    ((mid, g.id) ∈ db'.mg) ↔ ((mid, g.id) ∈ db.mg) := by
  rcases hd.2.2.2.1 with he | ⟨mid', gid', he, -, ⟨g₁, hg₁, hgid, hg₁c⟩⟩ |
      ⟨mid', gid', he, -, ⟨g₁, hg₁, hgid, hg₁c⟩⟩
  · rw [he]
  · rw [he]
    have hnp : (mid, g.id) ≠ (mid', gid') := by
      intro hpair
      have h2 : g.id = gid' := congrArg Prod.snd hpair
      have heq : g = g₁ := hwf.gUniq g hg g₁ hg₁ (h2.trans hgid.symm)
      have : g.creator = c1 := by rw [heq]; exact hg₁c
      exact hne (this.symm.trans hgc)
    constructor
    · intro h
      rcases List.mem_append.mp h with h | h
      · exact h
      · exact absurd (List.mem_singleton.mp h) hnp
    · exact fun h => List.mem_append_left _ h
  · rw [he]
    have hnp : (mid, g.id) ≠ (mid', gid') := by
      intro hpair
      have h2 : g.id = gid' := congrArg Prod.snd hpair
      have heq : g = g₁ := hwf.gUniq g hg g₁ hg₁ (h2.trans hgid.symm)
      have : g.creator = c1 := by rw [heq]; exact hg₁c
      exact hne (this.symm.trans hgc)
    exact List.mem_erase_of_ne hnp

/-- The `permission_groups` links of a `c2` permission are untouched by a
`c1` write. -/
theorem delta_pg_p {c1 c2 : String} {db db' : DB} (hne : c1 ≠ c2)
    (hwf : WF db) (hwf' : WF db') (hd : Delta c1 db db')
    {p : AuthPermission} (hp : p ∈ db.perms) (hpc : p.creator = c2) (gid : Nat) :
    ((p.id, gid) ∈ db'.pg) ↔ ((p.id, gid) ∈ db.pg) := by
  rcases hd.2.2.2.2 with he | ⟨pid, gid', he, ⟨p₁, hp₁, hpid, hp₁c⟩, -⟩ |
      ⟨pid, gid', he, ⟨p₁, hp₁, hpid, hp₁c⟩, -⟩
  · rw [he]
  · rw [he]
    have hnp : (p.id, gid) ≠ (pid, gid') := by
      intro hpair
      have h1 : p.id = pid := congrArg Prod.fst hpair
      have hpp' : p ∈ db'.perms := perms_lift hd.2.2.1 hp
      have heq : p = p₁ := hwf'.pUniq p hpp' p₁ hp₁ (h1.trans hpid.symm)
      have : p.creator = c1 := by rw [heq]; exact hp₁c
      exact hne (this.symm.trans hpc)
    constructor
    · intro h
      rcases List.mem_append.mp h with h | h
      · exact h
      · exact absurd (List.mem_singleton.mp h) hnp
    · exact fun h => List.mem_append_left _ h
  · rw [he]
    have hnp : (p.id, gid) ≠ (pid, gid') := by
      intro hpair
      have h1 : p.id = pid := congrArg Prod.fst hpair
      have heq : p = p₁ := hwf.pUniq p hp p₁ hp₁ (h1.trans hpid.symm)
      have : p.creator = c1 := by rw [heq]; exact hp₁c
      exact hne (this.symm.trans hpc)
    exact List.mem_erase_of_ne hnp

/-- The `permission_groups` links of a `c2` group are untouched by a `c1`
write. -/
theorem delta_pg_g {c1 c2 : String} {db db' : DB} (hne : c1 ≠ c2)
    (hwf : WF db) (hd : Delta c1 db db')
    {g : AuthGroup} (hg : g ∈ db.groups) (hgc : g.creator = c2) (pid : Nat) :
    ((pid, g.id) ∈ db'.pg) ↔ ((pid, g.id) ∈ db.pg) := by
  rcases hd.2.2.2.2 with he | ⟨pid', gid', he, -, ⟨g₁, hg₁, hgid, hg₁c⟩⟩ |
      ⟨pid', gid', he, -, ⟨g₁, hg₁, hgid, hg₁c⟩⟩
  · rw [he]
  · rw [he]
    have hnp : (pid, g.id) ≠ (pid', gid') := by
      intro hpair
      have h2 : g.id = gid' := congrArg Prod.snd hpair
      have heq : g = g₁ := hwf.gUniq g hg g₁ hg₁ (h2.trans hgid.symm)
      have : g.creator = c1 := by rw [heq]; exact hg₁c
      exact hne (this.symm.trans hgc)
    constructor
    · intro h
      rcases List.mem_append.mp h with h | h
      · exact h
      · exact absurd (List.mem_singleton.mp h) hnp
    · exact fun h => List.mem_append_left _ h
  · rw [he]
    have hnp : (pid, g.id) ≠ (pid', gid') := by
      intro hpair
      have h2 : g.id = gid' := congrArg Prod.snd hpair
      have heq : g = g₁ := hwf.gUniq g hg g₁ hg₁ (h2.trans hgid.symm)
      have : g.creator = c1 := by rw [heq]; exact hg₁c
      exact hne (this.symm.trans hgc)
    exact List.mem_erase_of_ne hnp

/-- A row reached through a membership link carries the anchor's tenant. -/
theorem memGroups_creator {db : DB} (hwf : WF db) {m : AuthMembership}
    (hm : m ∈ db.members) {g : AuthGroup} (hg : g ∈ memGroups db m) :
    g ∈ db.groups ∧ g.creator = m.creator := by
  rw [memGroups, List.mem_filter] at hg
  obtain ⟨hgg, hdec⟩ := hg
  have hmem := of_decide_eq_true hdec
  obtain ⟨m₂, hm₂, g₂, hg₂, hpair, hcr⟩ := hwf.mgOk _ hmem
  have hm2 : m = m₂ := hwf.mUniq m hm m₂ hm₂ (congrArg Prod.fst hpair)
  have hg2 : g = g₂ := hwf.gUniq g hgg g₂ hg₂ (congrArg Prod.snd hpair)
  exact ⟨hgg, by rw [hg2, ← hcr, hm2]⟩

theorem groupMems_creator {db : DB} (hwf : WF db) {g : AuthGroup}
    (hg : g ∈ db.groups) {m : AuthMembership} (hm : m ∈ groupMems db g) :
    m ∈ db.members ∧ m.creator = g.creator := by
  rw [groupMems, List.mem_filter] at hm
  obtain ⟨hmm, hdec⟩ := hm
  have hmem := of_decide_eq_true hdec
  obtain ⟨m₂, hm₂, g₂, hg₂, hpair, hcr⟩ := hwf.mgOk _ hmem
  have hm2 : m = m₂ := hwf.mUniq m hmm m₂ hm₂ (congrArg Prod.fst hpair)
  have hg2 : g = g₂ := hwf.gUniq g hg g₂ hg₂ (congrArg Prod.snd hpair)
  exact ⟨hmm, by rw [hm2, hcr, hg2]⟩

theorem groupPerms_creator {db : DB} (hwf : WF db) {g : AuthGroup}
    (hg : g ∈ db.groups) {p : AuthPermission} (hp : p ∈ groupPerms db g) :
    p ∈ db.perms ∧ p.creator = g.creator := by
  rw [groupPerms, List.mem_filter] at hp
  obtain ⟨hpp, hdec⟩ := hp
  have hmem := of_decide_eq_true hdec
  obtain ⟨p₂, hp₂, g₂, hg₂, hpair, hcr⟩ := hwf.pgOk _ hmem
  have hp2 : p = p₂ := hwf.pUniq p hpp p₂ hp₂ (congrArg Prod.fst hpair)
  have hg2 : g = g₂ := hwf.gUniq g hg g₂ hg₂ (congrArg Prod.snd hpair)
  exact ⟨hpp, by rw [hp2, hcr, hg2]⟩

theorem permGroups_creator {db : DB} (hwf : WF db) {p : AuthPermission}
    (hp : p ∈ db.perms) {g : AuthGroup} (hg : g ∈ permGroups db p) :
    g ∈ db.groups ∧ g.creator = p.creator := by
  rw [permGroups, List.mem_filter] at hg
  obtain ⟨hgg, hdec⟩ := hg
  have hmem := of_decide_eq_true hdec
  obtain ⟨p₂, hp₂, g₂, hg₂, hpair, hcr⟩ := hwf.pgOk _ hmem
  have hp2 : p = p₂ := hwf.pUniq p hp p₂ hp₂ (congrArg Prod.fst hpair)
  have hg2 : g = g₂ := hwf.gUniq g hgg g₂ hg₂ (congrArg Prod.snd hpair)
  exact ⟨hgg, by rw [hg2, ← hcr, hp2]⟩

/-- A group row that is only about to be created is linked to nobody. -/
theorem fresh_group_unlinked_mg {c1 : String} {db db' : DB} (hwf : WF db)
    (hd : Delta c1 db db') (mid : Nat) : (mid, db.nextGid) ∉ db'.mg := by
  have hold : (mid, db.nextGid) ∉ db.mg := by
    intro hmem
    obtain ⟨m₂, -, g₂, hg₂, hpair, -⟩ := hwf.mgOk _ hmem
    have h2 : db.nextGid = g₂.id := congrArg Prod.snd hpair
    have h3 := hwf.gFresh g₂ hg₂
    omega
  rcases hd.2.2.2.1 with he | ⟨mid', gid', he, -, ⟨g₁, hg₁, hgid, -⟩⟩ | ⟨mid', gid', he, -, -⟩
  · rw [he]; exact hold
  · rw [he]
    intro hmem
    rcases List.mem_append.mp hmem with h | h
    · exact hold h
    · have hpair := List.mem_singleton.mp h
      have h2 : db.nextGid = gid' := congrArg Prod.snd hpair
      have h3 := hwf.gFresh g₁ hg₁
      omega
  · rw [he]
    exact fun h => hold (List.mem_of_mem_erase h)

theorem fresh_group_unlinked_pg {c1 : String} {db db' : DB} (hwf : WF db)
    (hd : Delta c1 db db') (pid : Nat) : (pid, db.nextGid) ∉ db'.pg := by
  have hold : (pid, db.nextGid) ∉ db.pg := by
    intro hmem
    obtain ⟨p₂, -, g₂, hg₂, hpair, -⟩ := hwf.pgOk _ hmem
    have h2 : db.nextGid = g₂.id := congrArg Prod.snd hpair
    have h3 := hwf.gFresh g₂ hg₂
    omega
  rcases hd.2.2.2.2 with he | ⟨pid', gid', he, -, ⟨g₁, hg₁, hgid, -⟩⟩ | ⟨pid', gid', he, -, -⟩
  · rw [he]; exact hold
  · rw [he]
    intro hmem
    rcases List.mem_append.mp hmem with h | h
    · exact hold h
    · have hpair := List.mem_singleton.mp h
      have h2 : db.nextGid = gid' := congrArg Prod.snd hpair
      have h3 := hwf.gFresh g₁ hg₁
      omega
  · rw [he]
    exact fun h => hold (List.mem_of_mem_erase h)

/-- A membership row that is only about to be created can gain a link only to
a `c1` group, never to a `c2` group. -/
theorem fresh_member_unlinked {c1 c2 : String} {db db' : DB} (hne : c1 ≠ c2)
    (hwf : WF db) (hd : Delta c1 db db') {g : AuthGroup}
    (hg : g ∈ db.groups) (hgc : g.creator = c2) : (db.nextMid, g.id) ∉ db'.mg := by
  have hold : (db.nextMid, g.id) ∉ db.mg := by
    intro hmem
    obtain ⟨m₂, hm₂, g₂, -, hpair, -⟩ := hwf.mgOk _ hmem
    have h2 : db.nextMid = m₂.id := congrArg Prod.fst hpair
    have h3 := hwf.mFresh m₂ hm₂
    omega
  rcases hd.2.2.2.1 with he | ⟨mid', gid', he, -, ⟨g₁, hg₁, hgid, hg₁c⟩⟩ | ⟨mid', gid', he, -, -⟩
  · rw [he]; exact hold
  · rw [he]
    intro hmem
    rcases List.mem_append.mp hmem with h | h
    · exact hold h
    · have hpair := List.mem_singleton.mp h
      have h2 : g.id = gid' := congrArg Prod.snd hpair
      have heq : g = g₁ := hwf.gUniq g hg g₁ hg₁ (h2.trans hgid.symm)
      have : g.creator = c1 := by rw [heq]; exact hg₁c
      exact hne (this.symm.trans hgc)
  · rw [he]
    exact fun h => hold (List.mem_of_mem_erase h)

/-- A permission row that is only about to be created can gain a link only to
a `c1` group, never to a `c2` group. -/
theorem fresh_perm_unlinked {c1 c2 : String} {db db' : DB} (hne : c1 ≠ c2)
    (hwf : WF db) (hd : Delta c1 db db') {g : AuthGroup}
    (hg : g ∈ db.groups) (hgc : g.creator = c2) : (db.nextPid, g.id) ∉ db'.pg := by
  have hold : (db.nextPid, g.id) ∉ db.pg := by
    intro hmem
    obtain ⟨p₂, hp₂, g₂, -, hpair, -⟩ := hwf.pgOk _ hmem
    have h2 : db.nextPid = p₂.id := congrArg Prod.fst hpair
    have h3 := hwf.pFresh p₂ hp₂
    omega
  rcases hd.2.2.2.2 with he | ⟨pid', gid', he, -, ⟨g₁, hg₁, hgid, hg₁c⟩⟩ | ⟨pid', gid', he, -, -⟩
  · rw [he]; exact hold
  · rw [he]
    intro hmem
    rcases List.mem_append.mp hmem with h | h
    · exact hold h
    · have hpair := List.mem_singleton.mp h
      have h2 : g.id = gid' := congrArg Prod.snd hpair
      have heq : g = g₁ := hwf.gUniq g hg g₁ hg₁ (h2.trans hgid.symm)
      have : g.creator = c1 := by rw [heq]; exact hg₁c
      exact hne (this.symm.trans hgc)
  · rw [he]
    exact fun h => hold (List.mem_of_mem_erase h)

theorem delta_memGroups {c1 c2 : String} {db db' : DB} (hne : c1 ≠ c2)
    (hwf : WF db) (hwf' : WF db') (hd : Delta c1 db db')
    {m : AuthMembership} (hm : m ∈ db.members) (hmc : m.creator = c2) :
    memGroups db' m = memGroups db m := by
  rw [memGroups, memGroups]
  rcases hd.1 with ⟨he, -⟩ | ⟨r, d, he, -⟩ | ⟨g₀, f, hg₀, hg₀c, hf, he, -⟩
  · rw [he]
    exact List.filter_congr fun g _ =>
      decide_eq_decide.mpr (delta_mg_m hne hwf hwf' hd hm hmc g.id)
  · rw [he, filter_append_neg (p := fun g => decide ((m.id, g.id) ∈ db'.mg))
      (x := ⟨db.nextGid, c1, r, d, true⟩) db.groups
      (decide_eq_false (fresh_group_unlinked_mg hwf hd m.id))]
    exact List.filter_congr fun g _ =>
      decide_eq_decide.mpr (delta_mg_m hne hwf hwf' hd hm hmc g.id)
  · rw [he, updG]
    apply filter_map_eq₂
    · intro x hx
      have hid : (if x.id == g₀.id then f x else x).id = x.id := upd_id hf g₀.id x
      rw [hid]
      exact decide_eq_decide.mpr (delta_mg_m hne hwf hwf' hd hm hmc x.id)
    · intro x hx hq
      have hmemf : x ∈ memGroups db m := List.mem_filter.mpr ⟨hx, hq⟩
      obtain ⟨-, hxc⟩ := memGroups_creator hwf hm hmemf
      rw [hmc] at hxc
      have hni : ¬ (x.id == g₀.id) = true := by
        intro hxi
        have heq : x = g₀ := hwf.gUniq x hx g₀ hg₀ (beq_iff_eq.mp hxi)
        have hc1 : x.creator = c1 := by rw [heq]; exact hg₀c
        exact hne (hc1.symm.trans hxc)
      rw [if_neg hni]

theorem delta_groupMems {c1 c2 : String} {db db' : DB} (hne : c1 ≠ c2)
    (hwf : WF db) (hd : Delta c1 db db')
    {g : AuthGroup} (hg : g ∈ db.groups) (hgc : g.creator = c2) :
    groupMems db' g = groupMems db g := by
  rw [groupMems, groupMems]
  rcases hd.2.1 with ⟨he, -⟩ | ⟨u, he, -⟩
  · rw [he]
    exact List.filter_congr fun m _ =>
      decide_eq_decide.mpr (delta_mg_g hne hwf hd hg hgc m.id)
  · rw [he, filter_append_neg (p := fun m => decide ((m.id, g.id) ∈ db'.mg))
      (x := ⟨db.nextMid, c1, u, true⟩) db.members
      (decide_eq_false (fresh_member_unlinked hne hwf hd hg hgc))]
    exact List.filter_congr fun m _ =>
      decide_eq_decide.mpr (delta_mg_g hne hwf hd hg hgc m.id)

theorem delta_groupPerms {c1 c2 : String} {db db' : DB} (hne : c1 ≠ c2)
    (hwf : WF db) (hd : Delta c1 db db')
    {g : AuthGroup} (hg : g ∈ db.groups) (hgc : g.creator = c2) :
    groupPerms db' g = groupPerms db g := by
  rw [groupPerms, groupPerms]
  rcases hd.2.2.1 with ⟨he, -⟩ | ⟨n, he, -⟩
  · rw [he]
    exact List.filter_congr fun p _ =>
      decide_eq_decide.mpr (delta_pg_g hne hwf hd hg hgc p.id)
  · rw [he, filter_append_neg (p := fun p => decide ((p.id, g.id) ∈ db'.pg))
      (x := ⟨db.nextPid, c1, n, true⟩) db.perms
      (decide_eq_false (fresh_perm_unlinked hne hwf hd hg hgc))]
    exact List.filter_congr fun p _ =>
      decide_eq_decide.mpr (delta_pg_g hne hwf hd hg hgc p.id)

theorem delta_permGroups {c1 c2 : String} {db db' : DB} (hne : c1 ≠ c2)
    (hwf : WF db) (hwf' : WF db') (hd : Delta c1 db db')
    {p : AuthPermission} (hp : p ∈ db.perms) (hpc : p.creator = c2) :
    permGroups db' p = permGroups db p := by
  rw [permGroups, permGroups]
  rcases hd.1 with ⟨he, -⟩ | ⟨r, d, he, -⟩ | ⟨g₀, f, hg₀, hg₀c, hf, he, -⟩
  · rw [he]
    exact List.filter_congr fun g _ =>
      decide_eq_decide.mpr (delta_pg_p hne hwf hwf' hd hp hpc g.id)
  · rw [he, filter_append_neg (p := fun g => decide ((p.id, g.id) ∈ db'.pg))
      (x := ⟨db.nextGid, c1, r, d, true⟩) db.groups
      (decide_eq_false (fresh_group_unlinked_pg hwf hd p.id))]
    exact List.filter_congr fun g _ =>
      decide_eq_decide.mpr (delta_pg_p hne hwf hwf' hd hp hpc g.id)
  · rw [he, updG]
    apply filter_map_eq₂
    · intro x hx
      have hid : (if x.id == g₀.id then f x else x).id = x.id := upd_id hf g₀.id x
      rw [hid]
      exact decide_eq_decide.mpr (delta_pg_p hne hwf hwf' hd hp hpc x.id)
    · intro x hx hq
      have hmemf : x ∈ permGroups db p := List.mem_filter.mpr ⟨hx, hq⟩
      obtain ⟨-, hxc⟩ := permGroups_creator hwf hp hmemf
      rw [hpc] at hxc
      have hni : ¬ (x.id == g₀.id) = true := by
        intro hxi
        have heq : x = g₀ := hwf.gUniq x hx g₀ hg₀ (beq_iff_eq.mp hxi)
        have hc1 : x.creator = c1 := by rw [heq]; exact hg₀c
        exact hne (hc1.symm.trans hxc)
      rw [if_neg hni]

theorem gAct_creator (c2 role : String) :
    ∀ g, gAct c2 role g = true → g.creator = c2 := by
  intro g hg
  simp [gAct] at hg
  exact hg.1.1

theorem mAct_creator (c2 user : String) :
    ∀ m, mAct c2 user m = true → m.creator = c2 := by
  intro m hm
  simp [mAct] at hm
  exact hm.1.1

theorem pAct_creator (c2 name : String) :
    ∀ p, pAct c2 name p = true → p.creator = c2 := by
  intro p hp
  simp [pAct] at hp
  exact hp.1.1

theorem delta_get_roles {c1 c2 : String} {db db' : DB} (hne : c1 ≠ c2)
    (hwf : WF db) (hd : Delta c1 db db') :
    get_roles c2 db' = get_roles c2 db := by
  rw [get_roles, get_roles,
    delta_filter_groups hne hwf hd _ (by intro g hg; simp at hg; exact hg.1)]

theorem delta_get_permissions {c1 c2 : String} {db db' : DB} (hne : c1 ≠ c2)
    (hwf : WF db) (hd : Delta c1 db db') (role : String) :
    get_permissions c2 role db' = get_permissions c2 role db := by
  rw [get_permissions, get_permissions,
    delta_find?_groups hne hwf hd _ (gAct_creator c2 role)]
  cases h : db.groups.find? (gAct c2 role) with
  | none => rfl
  | some g =>
    dsimp only
    rw [delta_groupPerms hne hwf hd (List.mem_of_find?_eq_some h)
      (gAct_creator c2 role g (List.find?_some h))]

theorem delta_get_role_members {c1 c2 : String} {db db' : DB} (hne : c1 ≠ c2)
    (hwf : WF db) (hd : Delta c1 db db') (role : String) :
    get_role_members c2 role db' = get_role_members c2 role db := by
  rw [get_role_members, get_role_members,
    delta_find?_groups hne hwf hd _ (gAct_creator c2 role)]
  cases h : db.groups.find? (gAct c2 role) with
  | none => rfl
  | some g =>
    dsimp only
    rw [delta_groupMems hne hwf hd (List.mem_of_find?_eq_some h)
      (gAct_creator c2 role g (List.find?_some h))]

theorem delta_which_roles_can {c1 c2 : String} {db db' : DB} (hne : c1 ≠ c2)
    (hwf : WF db) (hwf' : WF db') (hd : Delta c1 db db') (name : String) :
    which_roles_can c2 name db' = which_roles_can c2 name db := by
  rw [which_roles_can, which_roles_can,
    delta_find?_perms hne hd _ (pAct_creator c2 name)]
  cases h : db.perms.find? (pAct c2 name) with
  | none => rfl
  | some p =>
    dsimp only
    rw [delta_permGroups hne hwf hwf' hd (List.mem_of_find?_eq_some h)
      (pAct_creator c2 name p (List.find?_some h))]

theorem delta_has_membership {c1 c2 : String} {db db' : DB} (hne : c1 ≠ c2)
    (hwf : WF db) (hwf' : WF db') (hd : Delta c1 db db') (user role : String) :
    has_membership c2 user role db' = has_membership c2 user role db := by
  rw [has_membership, has_membership,
    delta_find?_members hne hd _ (mAct_creator c2 user)]
  cases h : db.members.find? (mAct c2 user) with
  | none => rfl
  | some m =>
    dsimp only
    rw [delta_memGroups hne hwf hwf' hd (List.mem_of_find?_eq_some h)
      (mAct_creator c2 user m (List.find?_some h))]

theorem delta_has_permission {c1 c2 : String} {db db' : DB} (hne : c1 ≠ c2)
    (hwf : WF db) (hd : Delta c1 db db') (role name : String) :
    has_permission c2 role name db' = has_permission c2 role name db := by
  rw [has_permission, has_permission,
    delta_find?_groups hne hwf hd _ (gAct_creator c2 role)]
  cases h : db.groups.find? (gAct c2 role) with
  | none => rfl
  | some g =>
    dsimp only
    rw [delta_groupPerms hne hwf hd (List.mem_of_find?_eq_some h)
      (gAct_creator c2 role g (List.find?_some h))]

theorem delta_get_user_roles {c1 c2 : String} {db db' : DB} (hne : c1 ≠ c2)
    (hwf : WF db) (hwf' : WF db') (hd : Delta c1 db db') (user : String) :
    get_user_roles c2 user db' = get_user_roles c2 user db := by
  rw [get_user_roles, get_user_roles,
    delta_find?_members hne hd _ (mAct_creator c2 user)]
  cases h : db.members.find? (mAct c2 user) with
  | none => rfl
  | some m =>
    dsimp only
    rw [delta_memGroups hne hwf hwf' hd (List.mem_of_find?_eq_some h)
      (mAct_creator c2 user m (List.find?_some h))]

theorem delta_get_user_permissions {c1 c2 : String} {db db' : DB} (hne : c1 ≠ c2)
    (hwf : WF db) (hwf' : WF db') (hd : Delta c1 db db') (user : String) :
    get_user_permissions c2 user db' = get_user_permissions c2 user db := by
  rw [get_user_permissions, get_user_permissions,
    delta_find?_members hne hd _ (mAct_creator c2 user)]
  cases h : db.members.find? (mAct c2 user) with
  | none => rfl
  | some m =>
    have hm := List.mem_of_find?_eq_some h
    have hmc := mAct_creator c2 user m (List.find?_some h)
    dsimp only
    rw [delta_memGroups hne hwf hwf' hd hm hmc]
    apply List.flatMap_congr
    intro g hg
    obtain ⟨hgg, hgc⟩ := memGroups_creator hwf hm (List.mem_of_mem_filter hg)
    rw [hmc] at hgc
    rw [delta_groupPerms hne hwf hd hgg hgc]

theorem delta_user_has_permission {c1 c2 : String} {db db' : DB} (hne : c1 ≠ c2)
    (hwf : WF db) (hwf' : WF db') (hd : Delta c1 db db') (user name : String) :
    user_has_permission c2 user name db' = user_has_permission c2 user name db := by
  rw [user_has_permission, user_has_permission,
    delta_find?_members hne hd _ (mAct_creator c2 user)]
  cases h : db.members.find? (mAct c2 user) with
  | none => rfl
  | some m =>
    have hm := List.mem_of_find?_eq_some h
    have hmc := mAct_creator c2 user m (List.find?_some h)
    dsimp only
    rw [delta_memGroups hne hwf hwf' hd hm hmc]
    apply any_congr'
    intro g hg
    rw [delta_has_permission hne hwf hd g.role name]

theorem delta_which_users_can {c1 c2 : String} {db db' : DB} (hne : c1 ≠ c2)
    (hwf : WF db) (hwf' : WF db') (hd : Delta c1 db db') (name : String) :
    which_users_can c2 name db' = which_users_can c2 name db := by
  rw [which_users_can, which_users_can,
    delta_which_roles_can hne hwf hwf' hd name,
    foldl_append_eq_flatMap, foldl_append_eq_flatMap]
  simp only [List.nil_append]
  exact List.flatMap_congr fun role _ => delta_get_role_members hne hwf hd role

/-- All tenant-`c` read operations agree between two states. -/
def ReadAgree (c : String) (db' db : DB) : Prop :=
  ∀ role name user : String,
    get_roles c db' = get_roles c db ∧
    get_permissions c role db' = get_permissions c role db ∧
    get_user_permissions c user db' = get_user_permissions c user db ∧
    get_user_roles c user db' = get_user_roles c user db ∧
    get_role_members c role db' = get_role_members c role db ∧
    has_membership c user role db' = has_membership c user role db ∧
    has_permission c role name db' = has_permission c role name db ∧
    user_has_permission c user name db' = user_has_permission c user name db ∧
    which_roles_can c name db' = which_roles_can c name db ∧
    which_users_can c name db' = which_users_can c name db

theorem readAgree_refl (c : String) (db : DB) : ReadAgree c db db :=
  fun _ _ _ => ⟨rfl, rfl, rfl, rfl, rfl, rfl, rfl, rfl, rfl, rfl⟩

theorem readAgree_trans {c : String} {db₂ db₁ db₀ : DB}
    (h1 : ReadAgree c db₂ db₁) (h2 : ReadAgree c db₁ db₀) : ReadAgree c db₂ db₀ := by
  intro role name user
  obtain ⟨a1, a2, a3, a4, a5, a6, a7, a8, a9, a10⟩ := h1 role name user
  obtain ⟨b1, b2, b3, b4, b5, b6, b7, b8, b9, b10⟩ := h2 role name user
  exact ⟨a1.trans b1, a2.trans b2, a3.trans b3, a4.trans b4, a5.trans b5,
    a6.trans b6, a7.trans b7, a8.trans b8, a9.trans b9, a10.trans b10⟩

/-- A single `Delta`-shaped change is invisible to all reads of the other
tenant. -/
theorem delta_read_agree {c1 c2 : String} {db db' : DB} (hne : c1 ≠ c2)
    (hwf : WF db) (hwf' : WF db') (hd : Delta c1 db db') :
    ReadAgree c2 db' db := by
  intro role name user
  exact ⟨delta_get_roles hne hwf hd,
    delta_get_permissions hne hwf hd role,
    delta_get_user_permissions hne hwf hwf' hd user,
    delta_get_user_roles hne hwf hwf' hd user,
    delta_get_role_members hne hwf hd role,
    delta_has_membership hne hwf hwf' hd user role,
    delta_has_permission hne hwf hd role name,
    delta_user_has_permission hne hwf hwf' hd user name,
    delta_which_roles_can hne hwf hwf' hd name,
    delta_which_users_can hne hwf hwf' hd name⟩

/-- C2: tenant isolation.  Starting from any well-formed store, any sequence
of administrative writes (`add_role`, `del_role`, `add_permission`,
`del_permission`, `add_membership`, `del_membership`) performed under tenant
`c1` leaves the result of every read operation under any other tenant
`c2 ≠ c1` — `get_roles`, `get_permissions`, `get_user_permissions`,
`get_user_roles`, `get_role_members`, `has_membership`, `has_permission`,
`user_has_permission`, `which_roles_can`, `which_users_can` — unchanged. -/
theorem tenant_isolation (c1 c2 : String) (db : DB) (ws : List WriteOp)
    (hne : c1 ≠ c2) (hwf : WF db) : ReadAgree c2 (applyWs c1 ws db) db := by
  induction ws generalizing db with
  | nil => exact readAgree_refl c2 db
  | cons w ws ih =>
    have hd := applyW_delta c1 w db
    have hwf1 : WF (applyW c1 w db) := wf_delta hwf hd
    have h1 : ReadAgree c2 (applyW c1 w db) db :=
      delta_read_agree hne hwf hwf1 hd
    have h2 : ReadAgree c2 (applyWs c1 ws (applyW c1 w db)) (applyW c1 w db) :=
      ih (applyW c1 w db) hwf1
    exact readAgree_trans h2 h1

/-- The empty store is well-formed. -/
theorem wf_empty : WF DB.empty := by
  refine ⟨?_, ?_, ?_, ?_, ?_, ?_, ?_, ?_⟩ <;> intro x hx <;> simp [DB.empty] at hx

/-- Closed instance of `tenant_isolation`: a batch of writes under tenant
`"c1"` is invisible to tenant `"c2"`. -/
theorem tenant_isolation_witness :
    ("c1" : String) ≠ "c2" ∧ WF DB.empty ∧
      ReadAgree "c2"
        (applyWs "c1"
          [WriteOp.wAddRole "admin" none, WriteOp.wAddPerm "admin" "read",
            WriteOp.wAddMem "john" "admin", WriteOp.wDelRole "admin"]
          DB.empty)
        DB.empty :=
  ⟨by decide, wf_empty,
    tenant_isolation "c1" "c2" DB.empty
      [WriteOp.wAddRole "admin" none, WriteOp.wAddPerm "admin" "read",
        WriteOp.wAddMem "john" "admin", WriteOp.wDelRole "admin"]
      (by decide) wf_empty⟩

/-! ### C6: the boundary pipeline of `check_membership`

The Flask route `GET /api/membership/<user>/<group>` in `src/auth/routes.py`
validates the path parameters first (`validate_user_role_combination`,
rejecting with 400) and only then, inside a `try` block, calls
`_get_auth_service`, which inspects the `Authorization` header and `abort`s
on failure.  The `abort` raises a werkzeug `HTTPException`, which the
route's `except Exception` clause catches and feeds to
`response_format.handle_exception`; that handler rebuilds the status from
keywords of `str(e)`, so the final status is the handler's, not the
`abort`'s. -/

/-- A character of the class `[a-zA-Z0-9_-]`. -/
def nameChar (ch : Char) : Bool :=
  (ch ≥ 'a' && ch ≤ 'z') || (ch ≥ 'A' && ch ≤ 'Z') ||
    (ch ≥ '0' && ch ≤ '9') || ch == '_' || ch == '-'

/-- Python `re.match(r"^[a-zA-Z0-9_-]{1,maxLen}$", s)`: a full match of
1..`maxLen` class characters; `$` also matches just before one trailing
newline. -/
def nameFullMatch (maxLen : Nat) (s : String) : Bool :=
  let cs := s.toList
  let core := if cs.getLast? == some '\n' then cs.dropLast else cs
  core.all nameChar && decide (1 ≤ core.length) && decide (core.length ≤ maxLen)

/-- `validation.validate_user_name`. -/
def validate_user_name (s : String) : Bool := nameFullMatch 64 s

/-- `validation.validate_role_name`. -/
def validate_role_name (s : String) : Bool := nameFullMatch 64 s

/-- `validation.validate_user_role_combination` (the boolean component). -/
def validate_user_role_combination (user role : String) : Bool :=
  validate_user_name user && validate_role_name role

/-- A case-insensitive hexadecimal digit. -/
def hexChar (ch : Char) : Bool :=
  (ch ≥ '0' && ch ≤ '9') || (ch ≥ 'a' && ch ≤ 'f') || (ch ≥ 'A' && ch ≤ 'F')

/-- `validation.validate_client_key`: the case-insensitive
`8-4-4-4-12` hex-and-dash UUID shape (the route-level check; `$` again admits
one trailing newline). -/
def validate_client_key (s : String) : Bool :=
  let cs := s.toList
  let core := if cs.getLast? == some '\n' then cs.dropLast else cs
  core.length == 36 &&
    (List.range 36).all (fun i =>
      if i == 8 || i == 13 || i == 18 || i == 23 then core.getD i ' ' == '-'
      else hexChar (core.getD i ' '))

/-- `service.validate_client_key`: `uuid.UUID(client, version=4)` forces the
version and variant bits, so the check succeeds exactly when the lower-cased
key is already the canonical UUID4 string — lowercase hex in `8-4-4-4-12`
shape with version nibble `4` and variant nibble in `8..b`. -/
def service_validate_client_key (s : String) : Bool :=
  let cs := s.toLower.toList
  cs.length == 36 &&
    (List.range 36).all (fun i =>
      if i == 8 || i == 13 || i == 18 || i == 23 then cs.getD i ' ' == '-'
      else (cs.getD i ' ' ≥ '0' && cs.getD i ' ' ≤ '9') ||
        (cs.getD i ' ' ≥ 'a' && cs.getD i ' ' ≤ 'f')) &&
    cs.getD 14 ' ' == '4' &&
    (cs.getD 19 ' ' == '8' || cs.getD 19 ' ' == '9' ||
      cs.getD 19 ' ' == 'a' || cs.getD 19 ' ' == 'b')

/-- Helper for `splitWs`: accumulate the current word (reversed) while
scanning. -/
def splitWsAux : List Char → List Char → List String
  | [], acc => if acc.isEmpty then [] else [String.mk acc.reverse]
  | ch :: cs, acc =>
    if ch.isWhitespace then
      if acc.isEmpty then splitWsAux cs []
      else String.mk acc.reverse :: splitWsAux cs []
    else splitWsAux cs (ch :: acc)

/-- Python `str.split()` with no argument: split on whitespace runs,
discarding empty pieces. -/
def splitWs (s : String) : List String := splitWsAux s.toList []

/-- Python `str.lower()` (character-wise). -/
def lowerStr (s : String) : String := String.mk (s.toList.map Char.toLower)

/-- Prefix test on character lists (first argument is the needle). -/
def isPrefixChars : List Char → List Char → Bool
  | [], _ => true
  | _ :: _, [] => false
  | n :: ns, h :: hs => n == h && isPrefixChars ns hs

/-- Substring test on character lists (models Python `in` on strings). -/
def containsSub : List Char → List Char → Bool
  | [], needle => isPrefixChars needle []
  | h :: t, needle => isPrefixChars needle (h :: t) || containsSub t needle

/-- Python `needle in hay` on strings. -/
def strContains (hay needle : String) : Bool :=
  containsSub hay.toList needle.toList

/-- `response_format.handle_exception`: the route-level `except Exception`
handler keyword-sniffs `str(e).lower()` and maps it to an HTTP status —
"validation"/"invalid" → 400, else "unauthorized"/"auth" → 401, else
"forbidden" → 403, else "not found"/"404" → 404, else 500. -/
def handle_exception_code (msg : String) : Nat :=
  let m := lowerStr msg
  if strContains m "validation" || strContains m "invalid" then 400
  else if strContains m "unauthorized" || strContains m "auth" then 401
  else if strContains m "forbidden" then 403
  else if strContains m "not found" || strContains m "404" then 404
  else 500

/-- Outcome of `_get_auth_service` inside the route's `try` block: an
authenticated service (the bearer key), or the raised exception's `str(e)`.
`abort(code, description)` raises a werkzeug `HTTPException` whose string is
`"<code> <name>: <description>"`; indexing `parts[0]` of an all-whitespace
header raises `IndexError("list index out of range")`. -/
inductive AuthResult where
  | ok (key : String)
  | exc (msg : String)

/-- `_get_auth_service` of `src/auth/routes.py`, with each `abort`/raise
recorded as the exception it throws into the enclosing handler. -/
def get_auth_service_result (hdr : Option String) : AuthResult :=
  match hdr with
  | none => .exc "401 Unauthorized: Authorization header is missing."
  | some h =>
    if h = "" then .exc "401 Unauthorized: Authorization header is missing."
    else
      match splitWs h with
      | [] => .exc "list index out of range"
      | p₀ :: rest =>
        if lowerStr p₀ ≠ "bearer" ∨ (p₀ :: rest).length ≠ 2 then
          .exc "401 Unauthorized: Invalid Authorization header format. Must be 'Bearer <token>'."
        else
          let key := rest.headD ""
          if validate_client_key key = false then
            .exc ("400 Bad Request: Invalid client key: " ++ key ++
              ". Client key must be a valid UUID4.")
          else if service_validate_client_key key = false then
            .exc ("400 Bad Request: Invalid client key: " ++ key ++
              ". Client key must be a valid UUID4.")
          else .ok key

/-- Responses the modelled route can produce: the success envelope with the
engine's boolean, or an error envelope with its HTTP status code. -/
inductive Resp where
  | ok (b : Bool)
  | err (code : Nat)
  deriving Repr, DecidableEq

/-- The `check_membership` route: parameter validation answers 400 before
anything else; then the `try` block runs `_get_auth_service` and the engine
call, and `except Exception` feeds any raised exception — including the
helper's own `abort(401, ...)` — through `handle_exception`. -/
def check_membership_route (db : DB) (authHeader : Option String)
    (user group : String) : Resp :=
  if validate_user_role_combination user group = false then .err 400
  else
    match get_auth_service_result authHeader with
    | .ok key => .ok (has_membership key user group db)
    | .exc msg => .err (handle_exception_code msg)

/-- Counterexample to C6 as stated: with the `Authorization` header missing
and an invalid path parameter, the route answers 400 (BadInput), not 401 —
parameter validation runs before the bearer credential is inspected. -/
theorem check_membership_param_check_first :
    check_membership_route DB.empty none "bad user" "admin" = Resp.err 400 ∧
      Resp.err 400 ≠ Resp.err 401 := by
  decide

/-- C6 (amended): path-parameter validation is applied **first** — an invalid
path parameter yields 400 even when the Authorization header is missing or
malformed.  For a request whose path parameters pass validation, a missing or
empty Authorization header yields Unauthorized (401): the helper's
`abort(401, "Authorization header is missing.")` is caught by the route's
`except Exception` handler and its message matches the "unauthorized"
keyword.  A present-but-malformed header — at least one whitespace token but
not exactly `Bearer <key>` — is aborted 401 inside `_get_auth_service`, but
the same handler remaps it to 400 because its message contains "Invalid". -/
theorem check_membership_boundary_spec (db : DB) (hdr : Option String)
    (user group : String)
    (hu : validate_user_role_combination user group = true) :
    ((hdr = none ∨ hdr = some "") →
      check_membership_route db hdr user group = Resp.err 401) ∧
    (∀ h p₀ rest, hdr = some h → h ≠ "" → splitWs h = p₀ :: rest →
      (lowerStr p₀ ≠ "bearer" ∨ (p₀ :: rest).length ≠ 2) →
      check_membership_route db hdr user group = Resp.err 400) := by
  have hroute : ∀ hdr', check_membership_route db hdr' user group
      = match get_auth_service_result hdr' with
        | .ok key => Resp.ok (has_membership key user group db)
        | .exc msg => Resp.err (handle_exception_code msg) := by
    intro hdr'
    unfold check_membership_route
    rw [hu]
    rfl
  have hmiss : handle_exception_code
      "401 Unauthorized: Authorization header is missing." = 401 := by decide
  have hbad : handle_exception_code
      "401 Unauthorized: Invalid Authorization header format. Must be 'Bearer <token>'."
      = 400 := by decide
  constructor
  · rintro (rfl | rfl)
    · rw [hroute none]
      exact congrArg Resp.err hmiss
    · rw [hroute (some "")]
      exact congrArg Resp.err hmiss
  · rintro h p₀ rest rfl hne hsp hmal
    rw [hroute (some h)]
    have hres : get_auth_service_result (some h)
        = .exc "401 Unauthorized: Invalid Authorization header format. Must be 'Bearer <token>'." := by
      unfold get_auth_service_result
      dsimp only
      rw [if_neg hne, hsp]
      dsimp only
      rw [if_pos hmal]
    rw [hres]
    exact congrArg Resp.err hbad

/-- Closed instance of `check_membership_boundary_spec`: with valid path
parameters, a missing header is answered 401 while the non-Bearer header
`"Token abc"` is answered 400 (the helper's 401 remapped by
`handle_exception`). -/
theorem check_membership_boundary_spec_witness :
    validate_user_role_combination "john" "admin" = true ∧
    check_membership_route DB.empty none "john" "admin" = Resp.err 401 ∧
    check_membership_route DB.empty (some "Token abc") "john" "admin"
      = Resp.err 400 :=
  ⟨by decide,
    (check_membership_boundary_spec DB.empty none "john" "admin"
      (by decide)).1 (Or.inl rfl),
    (check_membership_boundary_spec DB.empty (some "Token abc") "john" "admin"
      (by decide)).2 "Token abc" "Token" ["abc"] rfl (by decide) (by decide)
      (by decide)⟩

/-! ### C7: deterministic encryption round trip

`DeterministicEncryption` in `src/auth/encryption.py` derives an IV from
the plaintext (`HMAC_SHA256(hmac_key, data)[:16]`), encrypts with
AES-256-CTR, and stores `base64(iv || ciphertext)`.  CTR mode XORs the
plaintext with a keystream that depends only on the key and the IV, and
decryption applies the identical XOR, so the scheme is modelled with the two
keyed primitives abstracted as pure functions: `hmacF data` is the HMAC
digest (the key is folded into the function) and `ksF iv i` is byte `i` of
the AES-CTR keystream for nonce `iv`.  Every theorem below holds for *all*
choices of these functions, hence in particular for HMAC-SHA256 and AES-256;
base64 is implemented concretely.  Plaintexts are byte lists (the UTF-8
encoding Python applies on entry and inverts on exit). -/

/-- Base64 alphabet: sextet to character. -/
def b64c (n : Nat) : Char :=
  if n < 26 then Char.ofNat (65 + n)
  else if n < 52 then Char.ofNat (97 + (n - 26))
  else if n < 62 then Char.ofNat (48 + (n - 52))
  else if n = 62 then '+'
  else '/'

/-- Base64 alphabet: character back to sextet. -/
def b64v (ch : Char) : Option Nat :=
  let n := ch.toNat
  if 65 ≤ n ∧ n ≤ 90 then some (n - 65)
  else if 97 ≤ n ∧ n ≤ 122 then some (26 + (n - 97))
  else if 48 ≤ n ∧ n ≤ 57 then some (52 + (n - 48))
  else if n = 43 then some 62
  else if n = 47 then some 63
  else none

theorem b64v_b64c : ∀ n, n < 64 → b64v (b64c n) = some n := by decide

theorem b64c_ne_pad : ∀ n, n < 64 → ¬ b64c n = '=' := by decide

/-- `base64.b64encode` on a byte list (as characters, before the final
ASCII decode). -/
def b64encode : List Nat → List Char
  | [] => []
  | [a] => [b64c (a / 4), b64c (a % 4 * 16), '=', '=']
  | [a, b] => [b64c (a / 4), b64c (a % 4 * 16 + b / 16), b64c (b % 16 * 4), '=']
  | a :: b :: c :: rest =>
    b64c (a / 4) :: b64c (a % 4 * 16 + b / 16) :: b64c (b % 16 * 4 + c / 64) ::
      b64c (c % 64) :: b64encode rest

/-- `base64.b64decode` on well-padded input (strict on alphabet membership;
the service only ever decodes values produced by `b64encode`). -/
def b64decode : List Char → Option (List Nat)
  | [] => some []
  | c₀ :: c₁ :: c₂ :: c₃ :: rest =>
    if rest = [] ∧ c₂ = '=' ∧ c₃ = '=' then
      match b64v c₀, b64v c₁ with
      | some s₀, some s₁ => some [s₀ * 4 + s₁ / 16]
      | _, _ => none
    else if rest = [] ∧ c₃ = '=' then
      match b64v c₀, b64v c₁, b64v c₂ with
      | some s₀, some s₁, some s₂ =>
        some [s₀ * 4 + s₁ / 16, s₁ % 16 * 16 + s₂ / 4]
      | _, _, _ => none
    else
      match b64v c₀, b64v c₁, b64v c₂, b64v c₃, b64decode rest with
      | some s₀, some s₁, some s₂, some s₃, some bs =>
        some ((s₀ * 4 + s₁ / 16) :: (s₁ % 16 * 16 + s₂ / 4) :: (s₂ % 4 * 64 + s₃) :: bs)
      | _, _, _, _, _ => none
  | _ => none

theorem b64_roundtrip : ∀ l : List Nat, (∀ b ∈ l, b < 256) →
    b64decode (b64encode l) = some l
  | [], _ => rfl
  | [a], h => by
    have ha : a < 256 := h a (by simp)
    simp only [b64encode, b64decode]
    rw [if_pos (by simp)]
    rw [b64v_b64c (a / 4) (by omega), b64v_b64c (a % 4 * 16) (by omega)]
    dsimp only
    congr 1
    congr 1
    omega
  | [a, b], h => by
    have ha : a < 256 := h a (by simp)
    have hb : b < 256 := h b (by simp)
    simp only [b64encode, b64decode]
    rw [if_neg (by
      rintro ⟨-, hc2, -⟩
      exact b64c_ne_pad (b % 16 * 4) (by omega) hc2)]
    rw [if_pos (by simp)]
    rw [b64v_b64c (a / 4) (by omega), b64v_b64c (a % 4 * 16 + b / 16) (by omega),
      b64v_b64c (b % 16 * 4) (by omega)]
    dsimp only
    congr 1
    congr 1
    · omega
    · congr 1
      omega
  | a :: b :: c :: rest, h => by
    have ha : a < 256 := h a (by simp)
    have hb : b < 256 := h b (by simp)
    have hc : c < 256 := h c (by simp)
    have ih := b64_roundtrip rest (fun x hx => h x (by simp [hx]))
    simp only [b64encode, b64decode]
    rw [if_neg (by
      rintro ⟨-, -, hc3⟩
      exact b64c_ne_pad (c % 64) (by omega) hc3)]
    rw [if_neg (by
      rintro ⟨-, hc3⟩
      exact b64c_ne_pad (c % 64) (by omega) hc3)]
    rw [b64v_b64c (a / 4) (by omega), b64v_b64c (a % 4 * 16 + b / 16) (by omega),
      b64v_b64c (b % 16 * 4 + c / 64) (by omega), b64v_b64c (c % 64) (by omega), ih]
    dsimp only
    congr 1
    congr 1
    · omega
    · congr 1
      · omega
      · congr 1
        omega

/-- The keyed primitives of `DeterministicEncryption`, abstracted as pure
functions of their non-key inputs: `hmacF data` models
`HMAC_SHA256(hmac_key, data)` (32 bytes) and `ksF iv i` models byte `i` of
the AES-256-CTR keystream for IV `iv`. -/
structure DeterministicEncryption where
  hmacF : List Nat → List Nat
  ksF : List Nat → Nat → Nat

/-- CTR-mode XOR of a byte stream against the keystream, starting at byte
index `i`.  Encryption and decryption are this same operation. -/
def ctr_xor (ks : Nat → Nat) : Nat → List Nat → List Nat
  | _, [] => []
  | i, b :: bs => (b ^^^ ks i) :: ctr_xor ks (i + 1) bs

/-- `DeterministicEncryption.encrypt`: derive the IV as the truncated HMAC of
the plaintext, CTR-encrypt, and base64-encode `iv || ciphertext`. -/
def encrypt (e : DeterministicEncryption) (data : List Nat) : String :=
  let iv := (e.hmacF data).take 16
  String.mk (b64encode (iv ++ ctr_xor (e.ksF iv) 0 data))

/-- `DeterministicEncryption.decrypt`: base64-decode, split off the 16-byte
IV, and CTR-decrypt the remainder. -/
def decrypt (e : DeterministicEncryption) (s : String) : Option (List Nat) :=
  match b64decode s.toList with
  | none => none
  | some bytes => some (ctr_xor (e.ksF (bytes.take 16)) 0 (bytes.drop 16))

theorem ctr_xor_invol (ks : Nat → Nat) :
    ∀ (i : Nat) (bs : List Nat), ctr_xor ks i (ctr_xor ks i bs) = bs
  | _, [] => rfl
  | i, b :: bs => by
    simp only [ctr_xor, Nat.xor_cancel_right]
    rw [ctr_xor_invol ks (i + 1) bs]

theorem ctr_xor_lt (ks : Nat → Nat) (hks : ∀ j, ks j < 256) :
    ∀ (i : Nat) (bs : List Nat), (∀ b ∈ bs, b < 256) →
      ∀ y ∈ ctr_xor ks i bs, y < 256
  | _, [], _ => by intro y hy; cases hy
  | i, b :: bs, h => by
    intro y hy
    rw [ctr_xor] at hy
    rcases List.mem_cons.mp hy with hy | hy
    · rw [hy]
      have h1 : b < 2 ^ 8 := h b (by simp)
      have h2 : ks i < 2 ^ 8 := hks i
      exact Nat.xor_lt_two_pow h1 h2
    · exact ctr_xor_lt ks hks (i + 1) bs (fun x hx => h x (by simp [hx])) y hy

/-- C7: for a fixed key (an arbitrary instantiation of the keyed
primitives), `encrypt` is deterministic — equal plaintexts give equal
ciphertext strings — and `decrypt` inverts it: `decrypt (encrypt x) = x` for
every byte-list plaintext `x`, provided the HMAC primitive returns at least
16 bytes of output, all primitive outputs are bytes, and the plaintext is a
byte list. -/
theorem encrypt_deterministic_roundtrip (e : DeterministicEncryption)
    (hhm : ∀ x, ∀ b ∈ e.hmacF x, b < 256)
    (hlen : ∀ x, 16 ≤ (e.hmacF x).length)
    (hks : ∀ iv j, e.ksF iv j < 256) :
    (∀ x y : List Nat, x = y → encrypt e x = encrypt e y) ∧
    (∀ x : List Nat, (∀ b ∈ x, b < 256) → decrypt e (encrypt e x) = some x) := by
  constructor
  · intro x y hxy
    rw [hxy]
  · intro x hx
    rw [encrypt, decrypt]
    have hbytes : ∀ b ∈ (e.hmacF x).take 16 ++
        ctr_xor (e.ksF ((e.hmacF x).take 16)) 0 x, b < 256 := by
      intro b hb
      rcases List.mem_append.mp hb with hb | hb
      · exact hhm x b (List.mem_of_mem_take hb)
      · exact ctr_xor_lt _ (hks _) 0 x hx b hb
    have htl : (String.mk (b64encode ((e.hmacF x).take 16 ++
        ctr_xor (e.ksF ((e.hmacF x).take 16)) 0 x))).toList
        = b64encode ((e.hmacF x).take 16 ++
          ctr_xor (e.ksF ((e.hmacF x).take 16)) 0 x) := rfl
    rw [htl, b64_roundtrip _ hbytes]
    have hivlen : ((e.hmacF x).take 16).length = 16 := by
      rw [List.length_take]
      exact min_eq_left (hlen x)
    dsimp only
    rw [List.take_left' hivlen, List.drop_left' hivlen]
    rw [ctr_xor_invol]

/-- Closed instance of `encrypt_deterministic_roundtrip` at a concrete
primitive instantiation and plaintext. -/
theorem encrypt_deterministic_roundtrip_witness :
    decrypt ⟨fun _ => List.replicate 32 7, fun _ _ => 9⟩
        (encrypt ⟨fun _ => List.replicate 32 7, fun _ _ => 9⟩ [72, 105])
      = some [72, 105] :=
  (encrypt_deterministic_roundtrip ⟨fun _ => List.replicate 32 7, fun _ _ => 9⟩
      (fun _ b hb => by
        have : b = 7 := List.eq_of_mem_replicate hb
        omega)
      (fun _ => by simp)
      (fun _ _ => by show (9 : Nat) < 256; omega)).2
    [72, 105] (by decide)

/-! ### C10: the field-level wrappers -/

theorem add_permission_visible_true (c r n : String) (db : DB)
    (h : has_permission c r n (add_permission c r n db).2 = true) :
    (add_permission c r n db).1 = true := by
  by_cases hp : has_permission c r n db
  · simp [add_permission, hp]
  · cases hg : db.groups.find? (gAct c r) with
    | some g =>
      cases hpm : db.perms.find? (pKey c n) with
      | some p =>
        by_cases hlink : (p.id, g.id) ∈ db.pg <;>
          simp [add_permission, hp, hg, hpm, hlink]
      | none => simp [add_permission, hp, hg, hpm]
    | none =>
      have e : (add_permission c r n db).2 = db := by simp [add_permission, hp, hg]
      rw [e] at h
      exact absurd h hp

theorem add_membership_visible_true (c u r : String) (db : DB) (hwf : WF db)
    (h : has_membership c u r (add_membership c u r db).2 = true) :
    (add_membership c u r db).1 = true := by
  cases hg : db.groups.find? (gAct c r) with
  | some g =>
    cases hm : db.members.find? (mKey c u) with
    | some m =>
      by_cases hlink : (m.id, g.id) ∈ db.mg <;>
        simp [add_membership, hg, hm, hlink]
    | none => simp [add_membership, hg, hm]
  | none =>
    have e : (add_membership c u r db).2 = db := by simp [add_membership, hg]
    rw [e] at h
    exfalso
    rw [has_membership] at h
    cases hmf : db.members.find? (mAct c u) with
    | none => rw [hmf] at h; cases h
    | some m =>
      rw [hmf, List.any_eq_true] at h
      obtain ⟨g', hg', hga⟩ := h
      simp only [Bool.and_eq_true, beq_iff_eq] at hga
      have hmm := List.mem_of_find?_eq_some hmf
      have hmc : m.creator = c := mAct_creator c u m (List.find?_some hmf)
      obtain ⟨hgg, hgcr⟩ := memGroups_creator hwf hmm hg'
      rw [List.find?_eq_none] at hg
      exact hg g' hgg (by simp [gAct, hgcr, hmc, hga.1, hga.2])

/-- C3: `add_role(c, r); add_role(c, r)` leaves the state identical to a single
`add_role(c, r)` and both calls return true; `add_permission` and
`add_membership` are likewise idempotent on the state, with the second call
reporting the same result as the first, and — whenever the relationship
exists (is in effect) in the post-state of the first call — reporting true
(for the membership case under the reachable-state invariant `WF`). -/
theorem add_ops_idempotent (c r u n : String) (d : Option String) (db : DB) :
    ((add_role c r d (add_role c r d db).2).2 = (add_role c r d db).2 ∧
      (add_role c r d db).1 = true ∧
      (add_role c r d (add_role c r d db).2).1 = true) ∧
    ((add_permission c r n (add_permission c r n db).2).2 = (add_permission c r n db).2 ∧
      (add_permission c r n (add_permission c r n db).2).1 = (add_permission c r n db).1) ∧
    ((add_membership c u r (add_membership c u r db).2).2 = (add_membership c u r db).2 ∧
      (add_membership c u r (add_membership c u r db).2).1 = (add_membership c u r db).1) ∧
    (has_permission c r n (add_permission c r n db).2 = true →
      (add_permission c r n (add_permission c r n db).2).1 = true) ∧
    (WF db → has_membership c u r (add_membership c u r db).2 = true →
      (add_membership c u r (add_membership c u r db).2).1 = true) := by
  refine ⟨add_role_twice c r d db, add_permission_twice c r n db,
    add_membership_twice c u r db, ?_, ?_⟩
  · intro h
    rw [(add_permission_twice c r n db).2]
    exact add_permission_visible_true c r n db h
  · intro hwf h
    rw [(add_membership_twice c u r db).2]
    exact add_membership_visible_true c u r db hwf h

/-- A small populated tenant: one active role `admin` granting `read`, with
member `john`. -/
def dbScenario : DB :=
  ⟨[⟨0, "c", "admin", none, true⟩], [⟨0, "c", "john", true⟩],
    [⟨0, "c", "read", true⟩], [(0, 0)], [(0, 0)], 1, 1, 1⟩

/-- Closed instance of `add_ops_idempotent`: re-adding the existing grant and
membership of `dbScenario` changes nothing and reports true. -/
theorem add_ops_idempotent_witness :
    WF dbScenario ∧
    has_permission "c" "admin" "read"
      (add_permission "c" "admin" "read" dbScenario).2 = true ∧
    has_membership "c" "john" "admin"
      (add_membership "c" "john" "admin" dbScenario).2 = true ∧
    (add_permission "c" "admin" "read"
      (add_permission "c" "admin" "read" dbScenario).2).1 = true ∧
    (add_membership "c" "john" "admin"
      (add_membership "c" "john" "admin" dbScenario).2).1 = true := by
  have hwf : WF dbScenario := by unfold WF; decide
  have h := add_ops_idempotent "c" "admin" "john" "read" none dbScenario
  exact ⟨hwf, by decide, by decide,
    h.2.2.2.1 (by decide), h.2.2.2.2 hwf (by decide)⟩

end Auth
